import Mathlib

/-!
Verification development for the Intel Trace Hub Memory Storage Unit buffer
manager (drivers/hwtracing/intel_th/msu.c): a shallow embedding of the
buffer/window/block storage engine, its consumption iterator, the topology
linker, the position locator, the lifecycle controller and the streaming
surface, together with theorems settling the specification claims.

The block-descriptor header file (msu.h) is not part of the sources, so the
hardware header accessors, the page constants and the generic kernel string
parser are modelled from the specification; every such definition carries a
doc comment starting with "Modelled from the spec". Everything else is a
direct translation of the C source.
-/

/-- Modelled from the spec (msu.h is absent): the page shift of the platform,
a Block is one fixed-size page. -/
def PAGE_SHIFT : Nat := 12

/-- Modelled from the spec (msu.h is absent): the page size, 2 ^ PAGE_SHIFT. -/
def PAGE_SIZE : Nat := 4096

/-- Modelled from the spec (msu.h is absent): the size in bytes of the block
descriptor header placed at the beginning of every block. -/
def MSC_BDESC : Nat := 64

/-- Modelled from the spec (msu.h is absent): the number of data bytes a block
can hold past its header. -/
def DATA_IN_PAGE : Nat := PAGE_SIZE - MSC_BDESC

/-- Modelled from the spec (msu.h is absent): software tag bit marking the last
block of a window. -/
def MSC_SW_TAG_LASTBLK : Nat := 1

/-- Modelled from the spec (msu.h is absent): software tag bit marking the last
window of the buffer. -/
def MSC_SW_TAG_LASTWIN : Nat := 2

/-- Operating mode constants of the enumerated mode set. -/
def MSC_MODE_SINGLE : Nat := 0

def MSC_MODE_MULTI : Nat := 1

def MSC_MODE_EXI : Nat := 2

def MSC_MODE_DEBUG : Nat := 3

/-- Kernel error codes, as returned by the driver (negative errno values). -/
def EINVAL : Int := -22

def EBUSY : Int := -16

def ENOMEM : Int := -12

def ENODEV : Int := -19

def ENOTSUPP : Int := -524

def EPERM : Int := -1

/-- Modelled from the spec (msu.h is absent): the block descriptor. The
software-written linkage part (sw_tag, block_sz, next_blk, next_win) is set by
the topology linker; the hardware-written header consists of the bytes-valid
counter (valid_dw, counted in dwords and including the header itself, per the
comment in msc_block_is_empty) and the wrap-occurred and last-written flags. -/
structure MscBlockDesc where
  sw_tag : Nat
  block_sz : Nat
  next_blk : Nat
  next_win : Nat
  hwWrapped : Bool
  hwLastWritten : Bool
  valid_dw : Nat
deriving Repr, DecidableEq, Inhabited

/-- Modelled from the spec (msu.h is absent): number of valid data bytes in a
block; valid_dw counts dwords and includes the header, a zero valid_dw means
the header has not been written. -/
def msc_data_sz (bdesc : MscBlockDesc) : Nat :=
  if bdesc.valid_dw = 0 then 0 else bdesc.valid_dw * 4 - MSC_BDESC

/-- Modelled from the spec (msu.h is absent): the hardware wrap-occurred flag
of a block header. -/
def msc_block_wrapped (bdesc : MscBlockDesc) : Bool :=
  bdesc.hwWrapped

/-- Modelled from the spec (msu.h is absent): the hardware last-written flag of
a block header. -/
def msc_block_last_written (bdesc : MscBlockDesc) : Bool :=
  bdesc.hwLastWritten

/-- struct msc_block: block descriptor pointer plus its physical address. -/
structure MscBlock where
  addr : Nat
  bdesc : MscBlockDesc
deriving Repr, DecidableEq, Inhabited

/-- struct msc_window: ordered array of blocks plus the page offset of the
window into the overall buffer. -/
structure MscWindow where
  pgoff : Nat
  blocks : List MscBlock
deriving Repr, DecidableEq, Inhabited

/-- struct msc: the per-device buffer state. The window list, page count,
single-mode data size and wrap flag, saved next-window start address, the
usage counter (negative: no buffer, zero: idle, positive: active users), the
reader (iterator) list length, the enabled flag and the operating mode.
The base pointer is abstracted to a Boolean allocation flag. -/
structure Msc where
  winList : List MscWindow
  nrPages : Nat
  singleSz : Nat
  singleWrap : Bool
  baseAllocated : Bool
  nwsa : Nat
  userCount : Int
  nIters : Nat
  enabled : Bool
  wrap : Bool
  mode : Nat
deriving Repr, DecidableEq, Inhabited

/-- Window of a buffer at a given index of the window list. -/
def mscWin (m : Msc) (i : Nat) : MscWindow :=
  m.winList.getD i default

/-- msc_block_is_empty: a block is empty when its header has not been written
or it holds no data bytes. -/
def msc_block_is_empty (bdesc : MscBlockDesc) : Bool :=
  if bdesc.valid_dw = 0 then true
  else if msc_data_sz bdesc = 0 then true
  else false

/-- First block of a window (block[0] in the C source). -/
def winBlock0 (w : MscWindow) : MscBlock :=
  w.blocks.headD default

/-- The scan loop of msc_oldest_window: walk the windows in list order keeping
the found counter, skip empty windows, return the index of the first non-empty
window once the counter is non-zero; none when the scan exhausts the list. -/
def oldestWindowGo (nwsa : Nat) : List MscWindow → Nat → Nat → Option Nat
  | [], _, _ => none
  | w :: ws, idx, found =>
    let found := if (winBlock0 w).addr = nwsa then found + 1 else found
    if msc_block_is_empty (winBlock0 w).bdesc then oldestWindowGo nwsa ws (idx + 1) found
    else if found ≠ 0 then some idx
    else oldestWindowGo nwsa ws (idx + 1) found

/-- msc_oldest_window: locate the index of the window with the oldest data.
The next-window start address is read from the hardware register (passed in as
regNwsa) when the device is enabled, and from the saved msc.nwsa otherwise.
Falls back to the first window when the scan finds nothing. -/
def msc_oldest_window (m : Msc) (regNwsa : Nat) : Option Nat :=
  if m.winList = [] then none
  else
    let nwsa := if m.enabled then regNwsa else m.nwsa
    some ((oldestWindowGo nwsa m.winList 0 0).getD 0)

/-- Whether the first block of a window sits at the reported next-window
start address. -/
def winIsMatch (nwsa : Nat) (w : MscWindow) : Bool :=
  (winBlock0 w).addr == nwsa

/-- Whether a window is non-empty (its first block has a written header and
holds data). -/
def winNonEmpty (w : MscWindow) : Bool :=
  ! msc_block_is_empty (winBlock0 w).bdesc

/-- The oldest-window lookup as worded by the claim: return the first
non-empty window encountered STRICTLY AFTER the window whose first block
address equals the reported next-write address; first window otherwise. -/
def oldest_window_claim_strict (m : Msc) (regNwsa : Nat) : Option Nat :=
  if m.winList = [] then none
  else
    let nwsa := if m.enabled then regNwsa else m.nwsa
    match m.winList.findIdx? (winIsMatch nwsa) with
    | some j =>
      match (m.winList.drop (j + 1)).findIdx? winNonEmpty with
      | some d => some (j + 1 + d)
      | none => some 0
    | none => some 0

/-- The oldest-window lookup as amended: return the first non-empty window
encountered AT OR AFTER the window whose first block address equals the
reported next-write address (that window itself qualifies when non-empty);
first window when there is no such match-then-non-empty hit. -/
def oldest_window_amended (m : Msc) (regNwsa : Nat) : Option Nat :=
  if m.winList = [] then none
  else
    let nwsa := if m.enabled then regNwsa else m.nwsa
    match m.winList.findIdx? (winIsMatch nwsa) with
    | some j =>
      match (m.winList.drop j).findIdx? winNonEmpty with
      | some d => some (j + d)
      | none => some 0
    | none => some 0

lemma oldestWindowGo_cons_empty (nwsa : Nat) (w : MscWindow) (ws : List MscWindow)
    (idx found : Nat) (he : msc_block_is_empty (winBlock0 w).bdesc = true) :
    oldestWindowGo nwsa (w :: ws) idx found
      = oldestWindowGo nwsa ws (idx + 1)
          (if (winBlock0 w).addr = nwsa then found + 1 else found) := by
  by_cases hm : (winBlock0 w).addr = nwsa
  · simp [oldestWindowGo, he, hm]
  · simp [oldestWindowGo, he, hm]

lemma oldestWindowGo_found (nwsa : Nat) (ws : List MscWindow) :
    ∀ idx found, found ≠ 0 →
      oldestWindowGo nwsa ws idx found
        = (ws.findIdx? winNonEmpty).map (fun d => idx + d) := by
  induction ws with
  | nil => intro idx found _; simp [oldestWindowGo]
  | cons w ws ih =>
    intro idx found hf
    by_cases he : msc_block_is_empty (winBlock0 w).bdesc = true
    · rw [oldestWindowGo_cons_empty nwsa w ws idx found he]
      have hf2 : (if (winBlock0 w).addr = nwsa then found + 1 else found) ≠ 0 := by
        split
        · omega
        · exact hf
      rw [ih (idx + 1) _ hf2]
      have hne : winNonEmpty w = false := by simp [winNonEmpty, he]
      rw [List.findIdx?_cons, hne]
      simp only [Bool.false_eq_true, if_false, List.findIdx?_succ]
      cases hfi : ws.findIdx? winNonEmpty with
      | none => simp [hfi]
      | some d => simp [hfi]; omega
    · have hne : winNonEmpty w = true := by simp [winNonEmpty, he]
      rw [List.findIdx?_cons, hne]
      by_cases hm : (winBlock0 w).addr = nwsa
      · simp [oldestWindowGo, he, hm, hf]
      · simp [oldestWindowGo, he, hm, hf]

lemma oldestWindowGo_scan (nwsa : Nat) (ws : List MscWindow) :
    ∀ idx, oldestWindowGo nwsa ws idx 0
      = match ws.findIdx? (winIsMatch nwsa) with
        | some j => ((ws.drop j).findIdx? winNonEmpty).map (fun d => idx + j + d)
        | none => none := by
  induction ws with
  | nil => intro idx; simp [oldestWindowGo]
  | cons w ws ih =>
    intro idx
    by_cases hm : (winBlock0 w).addr = nwsa
    · have hmb : winIsMatch nwsa w = true := by simp [winIsMatch, hm]
      rw [List.findIdx?_cons, hmb]
      by_cases he : msc_block_is_empty (winBlock0 w).bdesc = true
      · rw [oldestWindowGo_cons_empty nwsa w ws idx 0 he, if_pos hm,
          oldestWindowGo_found nwsa ws (idx + 1) 1 (by omega)]
        have hne : winNonEmpty w = false := by simp [winNonEmpty, he]
        simp only [if_pos rfl, List.drop_zero, List.findIdx?_cons, List.findIdx?_succ]
        cases hfi : ws.findIdx? winNonEmpty with
        | none => simp [hne, hfi]
        | some d =>
          simp [hne, hfi]
          omega
      · have hne : winNonEmpty w = true := by simp [winNonEmpty, he]
        have h1 : oldestWindowGo nwsa (w :: ws) idx 0 = some idx := by
          simp [oldestWindowGo, he, hm]
        rw [h1]
        simp only [if_pos rfl, List.drop_zero, List.findIdx?_cons, hne, if_true]
        simp
    · have hmb : winIsMatch nwsa w = false := by simp [winIsMatch, hm]
      rw [List.findIdx?_cons, hmb]
      have h1 : oldestWindowGo nwsa (w :: ws) idx 0
          = oldestWindowGo nwsa ws (idx + 1) 0 := by
        by_cases he : msc_block_is_empty (winBlock0 w).bdesc = true
        · rw [oldestWindowGo_cons_empty nwsa w ws idx 0 he, if_neg hm]
        · simp [oldestWindowGo, he, hm]
      rw [h1, ih (idx + 1)]
      simp only [Bool.false_eq_true, if_false, List.findIdx?_succ]
      cases hj : ws.findIdx? (winIsMatch nwsa) with
      | none => simp [hj]
      | some j =>
        simp only [hj, Option.map_some', List.drop_succ_cons]
        cases hfi : (ws.drop j).findIdx? winNonEmpty with
        | none => simp [hfi]
        | some d => simp [hfi]; omega

/-- C3 (amended): for every buffer, the oldest-window scan skips windows
whose first block is empty and returns the first non-empty window encountered
AT OR AFTER the window whose first block address equals the reported
next-write address; when the scan exhausts the list without such a
match-then-non-empty hit it returns the first window. -/
theorem C3_oldest_window_at_or_after (m : Msc) (regNwsa : Nat) :
    msc_oldest_window m regNwsa = oldest_window_amended m regNwsa := by
  unfold msc_oldest_window oldest_window_amended
  by_cases hw : m.winList = []
  · simp [hw]
  · simp only [if_neg hw]
    rw [oldestWindowGo_scan]
    cases hj : m.winList.findIdx? (winIsMatch (if m.enabled then regNwsa else m.nwsa)) with
    | none => simp
    | some j =>
      dsimp only
      cases hd : (m.winList.drop j).findIdx? winNonEmpty with
      | none => simp [hd]
      | some d =>
        simp only [hd, Option.map_some', Option.getD_some, Option.some.injEq]
        omega

/-- An empty block descriptor: the hardware has not written its header. -/
def bdEmpty : MscBlockDesc :=
  { sw_tag := 0, block_sz := 0, next_blk := 0, next_win := 0,
    hwWrapped := false, hwLastWritten := false, valid_dw := 0 }

/-- A block descriptor with 4 valid data bytes (17 valid dwords including the
16-dword header). -/
def bdFull : MscBlockDesc :=
  { sw_tag := 0, block_sz := 0, next_blk := 0, next_win := 0,
    hwWrapped := false, hwLastWritten := false, valid_dw := 17 }

/-- A three-window buffer: window 0 empty, windows 1 and 2 non-empty; the
next-write address points at the first block of window 1. -/
def mscC3 : Msc :=
  { winList :=
      [ { pgoff := 0, blocks := [⟨0x1000, bdEmpty⟩, ⟨0x1100, bdEmpty⟩] },
        { pgoff := 2, blocks := [⟨0x2000, bdFull⟩, ⟨0x2100, bdFull⟩] },
        { pgoff := 4, blocks := [⟨0x3000, bdFull⟩, ⟨0x3100, bdFull⟩] } ],
    nrPages := 6, singleSz := 0, singleWrap := false, baseAllocated := true,
    nwsa := 0, userCount := 0, nIters := 0, enabled := true, wrap := false,
    mode := MSC_MODE_MULTI }

/-- C3 counterexample: with the next-write address equal to window 1 first
block and window 1 non-empty, the code returns window 1 itself (the matching
window), while the claim as stated (first non-empty window STRICTLY AFTER the
match) would return window 2. -/
theorem C3_counterexample_strictly_after :
    msc_oldest_window mscC3 0x2000 = some 1
      ∧ oldest_window_claim_strict mscC3 0x2000 = some 2
      ∧ msc_oldest_window mscC3 0x2000 ≠ oldest_window_claim_strict mscC3 0x2000 := by
  refine ⟨by decide, by decide, by decide⟩

/-- struct msc_iter: the consumption-iterator state. startWinOpt models the
start_win pointer (none before the first iterate call), startBlock keeps the
C int including its -1 sentinel; the C source also initialises the block
index to the sentinel -1, but that value is never read before
msc_iter_block_start assigns a real index, so block is kept as a Nat. -/
structure MscIter where
  startWinOpt : Option Nat
  win : Nat
  offset : Nat
  startBlock : Int
  block : Nat
  blockOff : Nat
  wrapCount : Nat
  eof : Nat
deriving Repr, DecidableEq, Inhabited

/-- msc_iter_init: zeroed iterator with the start-block sentinel set. -/
def msc_iter_init : MscIter :=
  { startWinOpt := none, win := 0, offset := 0, startBlock := -1,
    block := 0, blockOff := 0, wrapCount := 0, eof := 0 }

/-- msc_iter_bdesc: block descriptor under the iterator cursor. -/
def msc_iter_bdesc (m : Msc) (it : MscIter) : MscBlockDesc :=
  ((mscWin m it.win).blocks.getD it.block default).bdesc

/-- msc_win_oldest_block: without wrapping the first block is the oldest;
with wrapping, scan for the last-written block, falling back to block 0. -/
def msc_win_oldest_block (w : MscWindow) : Nat :=
  if ¬ msc_block_wrapped (winBlock0 w).bdesc then 0
  else
    match w.blocks.findIdx? (fun b => msc_block_last_written b.bdesc) with
    | some k => k
    | none => 0

/-- msc_iter_block_start: position the cursor at the oldest block of the
current window and set the wrap counter to 2 when that block is
wrap-flagged; no-op when the start block is already set. -/
def msc_iter_block_start (m : Msc) (it : MscIter) : MscIter :=
  if it.startBlock ≠ -1 then it
  else
    let s := msc_win_oldest_block (mscWin m it.win)
    let it2 := { it with startBlock := (s : Int), block := s, wrapCount := 0 }
    if msc_block_wrapped (msc_iter_bdesc m it2) then { it2 with wrapCount := 2 }
    else it2

/-- msc_iter_win_start: position the iterator at the oldest window, then at
its oldest block; fails when there are no windows. -/
def msc_iter_win_start (m : Msc) (regNwsa : Nat) (it : MscIter) : MscIter × Int :=
  if it.startWinOpt.isSome then (it, 0)
  else
    match msc_oldest_window m regNwsa with
    | none => (it, EINVAL)
    | some w0 =>
      let it2 := { it with startWinOpt := some w0, win := w0, startBlock := -1 }
      (msc_iter_block_start m it2, 0)

/-- msc_is_last_win: a window index is last when it is the final entry of the
window list. -/
def msc_is_last_win (m : Msc) (i : Nat) : Bool :=
  i + 1 == m.winList.length

/-- msc_next_window: the following window, wrapping from the last window back
to the first. -/
def msc_next_window (m : Msc) (i : Nat) : Nat :=
  if msc_is_last_win m i then 0 else i + 1

/-- msc_iter_win_advance: move to the next window in ring order; reaching the
starting window again sets end-of-stream, otherwise reposition at the new
window's oldest block. -/
def msc_iter_win_advance (m : Msc) (it : MscIter) : MscIter :=
  let it2 := { it with win := msc_next_window m it.win, startBlock := -1 }
  if it2.startWinOpt = some it2.win then { it2 with eof := it2.eof + 1 }
  else msc_iter_block_start m it2

/-- msc_iter_block_advance: reset the intra-block offset; on the wrap-flagged
starting block decrement the wrap counter and advance to the next window when
it reaches zero; advance to the next window after the last-written block; else
step to the next block index (wrapping inside the window), forcing a window
advance if that returns to the starting block without wrapping. -/
def msc_iter_block_advance (m : Msc) (it : MscIter) : MscIter :=
  let it1 := { it with blockOff := 0 }
  let stepTwo := fun (a : MscIter) =>
    if a.wrapCount = 0 ∧ msc_block_last_written (msc_iter_bdesc m a) then
      msc_iter_win_advance m a
    else
      let b := a.block + 1
      let a2 := { a with block := if b = (mscWin m a.win).blocks.length then 0 else b }
      if a2.wrapCount = 0 ∧ (a2.block : Int) = a2.startBlock then
        msc_iter_win_advance m a2
      else a2
  if it1.wrapCount ≠ 0 ∧ (it1.block : Int) = it1.startBlock then
    let it2 := { it1 with wrapCount := it1.wrapCount - 1 }
    if it2.wrapCount = 0 then msc_iter_win_advance m it2 else stepTwo it2
  else stepTwo it1

/-- Drive the iterator by the advance rules alone, recording each visited
position as (window index, block index, wrap counter) until end-of-stream or
fuel exhaustion; also returns the final iterator state. -/
def msc_iter_run (m : Msc) : Nat → MscIter → List (Nat × Nat × Nat) × MscIter
  | 0, it => ([], it)
  | fuel + 1, it =>
    if it.eof ≠ 0 then ([], it)
    else
      let res := msc_iter_run m fuel (msc_iter_block_advance m it)
      ((it.win, it.block, it.wrapCount) :: res.1, res.2)

/-- The iterator state positioned at the oldest block of window i, with start
window w0 and running offset off (the result of msc_iter_block_start on a
freshly advanced or freshly started iterator). -/
def winStartState (m : Msc) (w0 i off : Nat) : MscIter :=
  msc_iter_block_start m
    { startWinOpt := some w0, win := i, offset := off, startBlock := -1,
      block := 0, blockOff := 0, wrapCount := 0, eof := 0 }

/-- Expected visit list of a window whose oldest block s is wrap-flagged:
the tail visit of s (wrap counter 2), one full lap over the other blocks,
then s again as a normal block (wrap counter 1). -/
def winVisitsWrapped (i s n : Nat) : List (Nat × Nat × Nat) :=
  (i, s, 2) :: ((List.range (n - 1)).map (fun k => (i, (s + 1 + k) % n, 1))) ++ [(i, s, 1)]

/-- Expected visit list of a window without block wrap: successive block
indices from the oldest block, stopping at (and including) the first
last-written block, and never returning to the start. -/
def nwVisitsGo (blocks : List MscBlock) (s : Nat) : Nat → Nat → List Nat
  | _, 0 => []
  | b, rem + 1 =>
    if msc_block_last_written (blocks.getD b default).bdesc then [b]
    else
      let b2 := if b + 1 = blocks.length then 0 else b + 1
      if b2 = s then [b] else b :: nwVisitsGo blocks s b2 rem

/-- Expected visit list of one window during a lap. -/
def winVisits (i : Nat) (w : MscWindow) : List (Nat × Nat × Nat) :=
  let n := w.blocks.length
  let s := msc_win_oldest_block w
  if msc_block_wrapped ((w.blocks.getD s default)).bdesc then winVisitsWrapped i s n
  else (nwVisitsGo w.blocks s s n).map (fun b => (i, b, 0))

/-- Expected visit list of one full lap starting at window w0: windows in
ring order, each exactly once. -/
def iterLapSpec (m : Msc) (w0 : Nat) : List (Nat × Nat × Nat) :=
  (List.range m.winList.length).flatMap
    (fun k =>
      winVisits ((w0 + k) % m.winList.length) (mscWin m ((w0 + k) % m.winList.length)))

/-- Fuel amply covering one full lap of the iterator: the lap visit count
plus one; the stabilisation theorem shows that any larger fuel produces the
same trace. -/
def iterFuel (m : Msc) (w0 : Nat) : Nat :=
  (iterLapSpec m w0).length + 1

/-- The in-window successor computation of the C source equals addition
modulo the block count. -/
lemma wrapIdxEq (x n : Nat) (h : x < n) :
    (if x + 1 = n then 0 else x + 1) = (x + 1) % n := by
  by_cases hx : x + 1 = n
  · subst hx; simp
  · rw [if_neg hx, Nat.mod_eq_of_lt (by omega)]

lemma modSuccEq (x n : Nat) : (x % n + 1) % n = (x + 1) % n :=
  Nat.mod_add_mod x n 1

lemma rot_mod_ne (s j n : Nat) (hs : s < n) (h1 : 1 ≤ j) (h2 : j < n) :
    (s + j) % n ≠ s := by
  intro h
  have hmod : (s + j) % n = (s + 0) % n := by
    simpa [Nat.mod_eq_of_lt hs] using h
  have h3 : j ≡ 0 [MOD n] := Nat.ModEq.add_left_cancel' s hmod
  have h4 : j % n = 0 := by simpa [Nat.ModEq] using h3
  rw [Nat.mod_eq_of_lt h2] at h4
  omega

lemma rot_mod_inj (s n k1 k2 : Nat) (h1 : k1 < n) (h2 : k2 < n)
    (h : (s + k1) % n = (s + k2) % n) : k1 = k2 := by
  have h3 : k1 ≡ k2 [MOD n] := Nat.ModEq.add_left_cancel' s h
  rw [Nat.ModEq, Nat.mod_eq_of_lt h1, Nat.mod_eq_of_lt h2] at h3
  exact h3

lemma rot_mod_surj (s n j : Nat) (hn : 0 < n) (hj : j < n) :
    ∃ k, k < n ∧ (s + k) % n = j := by
  refine ⟨(j + n - s % n) % n, Nat.mod_lt _ hn, ?_⟩
  have hs : s % n < n := Nat.mod_lt _ hn
  have hd := Nat.mod_add_div s n
  have he : s + ((j + n - s % n) % n) ≡ s + (j + n - s % n) [MOD n] :=
    Nat.ModEq.add_left s (Nat.mod_modEq _ _)
  have hval : s + (j + n - s % n) = j + n + n * (s / n) := by omega
  calc (s + (j + n - s % n) % n) % n
      = (s + (j + n - s % n)) % n := he
    _ = (j + n + n * (s / n)) % n := by rw [hval]
    _ = j := by
        rw [Nat.add_mul_mod_self_left, Nat.add_mod_right, Nat.mod_eq_of_lt hj]

lemma findIdx?_lt_length {α : Type} (p : α → Bool) :
    ∀ (l : List α) (i : Nat), l.findIdx? p = some i → i < l.length := by
  intro l
  induction l with
  | nil => intro i h; simp [List.findIdx?] at h
  | cons a as ih =>
    intro i h
    rw [List.findIdx?_cons] at h
    by_cases hp : p a = true
    · rw [if_pos hp] at h
      cases h
      simp
    · rw [if_neg hp, List.findIdx?_succ] at h
      cases hfi : as.findIdx? p with
      | none => rw [hfi] at h; simp at h
      | some j =>
        rw [hfi] at h
        simp only [Option.map_some', Option.some.injEq] at h
        have := ih j hfi
        simp [← h]
        omega

lemma msc_win_oldest_block_lt (w : MscWindow) (h : w.blocks ≠ []) :
    msc_win_oldest_block w < w.blocks.length := by
  have hn : 0 < w.blocks.length := List.length_pos.mpr h
  unfold msc_win_oldest_block
  split
  · exact hn
  · cases hfi : w.blocks.findIdx? (fun b => msc_block_last_written b.bdesc) with
    | none => simp [hfi, hn]
    | some k =>
      simp only [hfi]
      exact findIdx?_lt_length _ _ _ hfi

lemma msc_iter_run_eof (m : Msc) (fuel : Nat) (it : MscIter) (h : it.eof ≠ 0) :
    msc_iter_run m fuel it = ([], it) := by
  cases fuel <;> simp [msc_iter_run, h]

lemma msc_iter_run_add (m : Msc) (f e : Nat) (it : MscIter) :
    msc_iter_run m (f + e) it
      = ((msc_iter_run m f it).1
            ++ (msc_iter_run m e (msc_iter_run m f it).2).1,
         (msc_iter_run m e (msc_iter_run m f it).2).2) := by
  induction f generalizing it with
  | zero => simp [msc_iter_run]
  | succ f ih =>
    have harith : f + 1 + e = (f + e) + 1 := by omega
    rw [harith]
    by_cases h : it.eof ≠ 0
    · rw [msc_iter_run_eof m ((f + e) + 1) it h, msc_iter_run_eof m (f + 1) it h]
      simp [msc_iter_run_eof m e it h]
    · simp only [msc_iter_run, if_neg h]
      rw [ih]
      simp

/-- A mid-traversal iterator state: started at window w0, cursor inside
window i at block b with wrap counter wc, intra-block offset cleared. -/
def midState (w0 i off : Nat) (sb : Int) (b wc : Nat) : MscIter :=
  { startWinOpt := some w0, win := i, offset := off, startBlock := sb,
    block := b, blockOff := 0, wrapCount := wc, eof := 0 }

lemma msc_iter_block_start_shape (m : Msc) (a : MscIter) (h : a.startBlock = -1) :
    msc_iter_block_start m a
      = { a with
          startBlock := (msc_win_oldest_block (mscWin m a.win) : Int),
          block := msc_win_oldest_block (mscWin m a.win),
          wrapCount :=
            if msc_block_wrapped (((mscWin m a.win).blocks.getD
                (msc_win_oldest_block (mscWin m a.win)) default)).bdesc then 2
            else 0 } := by
  unfold msc_iter_block_start
  rw [if_neg (by simp [h])]
  simp only [msc_iter_bdesc]
  split
  · rfl
  · rfl

lemma winStartState_val (m : Msc) (w0 i off : Nat) :
    winStartState m w0 i off
      = midState w0 i off (msc_win_oldest_block (mscWin m i) : Int)
          (msc_win_oldest_block (mscWin m i))
          (if msc_block_wrapped (((mscWin m i).blocks.getD
              (msc_win_oldest_block (mscWin m i)) default)).bdesc then 2
           else 0) := by
  unfold winStartState
  rw [msc_iter_block_start_shape m _ rfl]
  rfl

/-- What a window advance produces, as consumed by the lap induction: the
end-of-stream state when the ring returns to the starting window, and the
canonical start state of the next window otherwise. -/
def advTarget (m : Msc) (w0 i off : Nat) (itE : MscIter) : Prop :=
  (msc_next_window m i = w0 →
     itE.eof = 1 ∧ itE.win = w0 ∧ itE.startWinOpt = some w0)
  ∧ (msc_next_window m i ≠ w0 →
     itE = winStartState m w0 (msc_next_window m i) off)

lemma winAdv_target (m : Msc) (w0 i off : Nat) (a : MscIter)
    (h1 : a.startWinOpt = some w0) (h2 : a.win = i) (h3 : a.offset = off)
    (h4 : a.blockOff = 0) (h5 : a.eof = 0) :
    advTarget m w0 i off (msc_iter_win_advance m a) := by
  constructor
  · intro hnext
    unfold msc_iter_win_advance
    rw [if_pos (by simp [h1, h2, hnext])]
    simp [h1, h2, h5, hnext]
  · intro hnext
    unfold msc_iter_win_advance
    rw [if_neg (by simp [h1, h2]; intro hcon; exact hnext hcon.symm)]
    rw [msc_iter_block_start_shape m _ rfl, winStartState_val]
    obtain ⟨sw, wi, og, sb, bl, bo, wc, eo⟩ := a
    simp only at h1 h2 h3 h4 h5
    subst h1 h2 h3 h4 h5
    rfl

lemma adv_wrap_first (m : Msc) (w0 i off s : Nat)
    (hs : s < (mscWin m i).blocks.length) :
    msc_iter_block_advance m (midState w0 i off (s : Int) s 2)
      = midState w0 i off (s : Int) ((s + 1) % (mscWin m i).blocks.length) 1 := by
  unfold msc_iter_block_advance
  simp only [midState]
  rw [if_pos (by simp)]
  rw [if_neg (by simp)]
  rw [if_neg (by simp)]
  rw [if_neg (by simp)]
  simp [wrapIdxEq s _ hs]

lemma adv_wrap_mid (m : Msc) (w0 i off s b : Nat)
    (hb : b < (mscWin m i).blocks.length) (hne : b ≠ s) :
    msc_iter_block_advance m (midState w0 i off (s : Int) b 1)
      = midState w0 i off (s : Int) ((b + 1) % (mscWin m i).blocks.length) 1 := by
  unfold msc_iter_block_advance
  simp only [midState]
  rw [if_neg (by simp [hne])]
  rw [if_neg (by simp)]
  rw [if_neg (by simp)]
  simp [wrapIdxEq b _ hb]

lemma adv_wrap_last (m : Msc) (w0 i off s : Nat) :
    msc_iter_block_advance m (midState w0 i off (s : Int) s 1)
      = msc_iter_win_advance m (midState w0 i off (s : Int) s 0) := by
  unfold msc_iter_block_advance
  simp only [midState]
  rw [if_pos (by simp)]
  rw [if_pos (by simp)]

lemma adv_plain_lw (m : Msc) (w0 i off s b : Nat)
    (hlw : msc_block_last_written (((mscWin m i).blocks.getD b default)).bdesc = true) :
    msc_iter_block_advance m (midState w0 i off (s : Int) b 0)
      = msc_iter_win_advance m (midState w0 i off (s : Int) b 0) := by
  unfold msc_iter_block_advance
  simp only [midState]
  rw [if_neg (by simp)]
  rw [if_pos ⟨trivial, hlw⟩]

lemma adv_plain_step (m : Msc) (w0 i off s b : Nat)
    (hb : b < (mscWin m i).blocks.length)
    (hlw : msc_block_last_written (((mscWin m i).blocks.getD b default)).bdesc = false) :
    msc_iter_block_advance m (midState w0 i off (s : Int) b 0)
      = if (b + 1) % (mscWin m i).blocks.length = s then
          msc_iter_win_advance m
            (midState w0 i off (s : Int) ((b + 1) % (mscWin m i).blocks.length) 0)
        else midState w0 i off (s : Int) ((b + 1) % (mscWin m i).blocks.length) 0 := by
  unfold msc_iter_block_advance
  simp only [midState]
  rw [if_neg (by simp)]
  rw [if_neg (fun hcon => by
    have h2 : msc_block_last_written (((mscWin m i).blocks.getD b default)).bdesc = true := hcon.2
    rw [hlw] at h2
    exact Bool.false_ne_true h2)]
  by_cases hbs : (b + 1) % (mscWin m i).blocks.length = s
  · rw [if_pos hbs, if_pos (by simp [wrapIdxEq b _ hb, hbs])]
    simp [wrapIdxEq b _ hb, hbs]
  · rw [if_neg hbs, if_neg (by simp [wrapIdxEq b _ hb]; exact fun hcon => hbs (by exact_mod_cast hcon))]
    simp [wrapIdxEq b _ hb]

lemma run_step (m : Msc) (fuel : Nat) (it : MscIter) (h : it.eof = 0) :
    msc_iter_run m (fuel + 1) it
      = ((it.win, it.block, it.wrapCount)
            :: (msc_iter_run m fuel (msc_iter_block_advance m it)).1,
         (msc_iter_run m fuel (msc_iter_block_advance m it)).2) := by
  simp [msc_iter_run, h]


lemma run_wrap_mid (m : Msc) (w0 i off s : Nat)
    (hs : s < (mscWin m i).blocks.length) :
    ∀ d, d < (mscWin m i).blocks.length → ∀ slack,
      msc_iter_run m ((d + 1) + slack)
          (midState w0 i off (s : Int)
            ((s + ((mscWin m i).blocks.length - d)) % (mscWin m i).blocks.length) 1)
        = (((List.range d).map
              (fun t => (i, (s + ((mscWin m i).blocks.length - d) + t)
                              % (mscWin m i).blocks.length, 1)))
             ++ [(i, s, 1)]
             ++ (msc_iter_run m slack
                  (msc_iter_win_advance m (midState w0 i off (s : Int) s 0))).1,
           (msc_iter_run m slack
              (msc_iter_win_advance m (midState w0 i off (s : Int) s 0))).2) := by
  intro d
  induction d with
  | zero =>
    intro hd slack
    have hn : 0 < (mscWin m i).blocks.length := by omega
    have hmod : (s + ((mscWin m i).blocks.length - 0)) % (mscWin m i).blocks.length = s := by
      rw [Nat.sub_zero, Nat.add_mod_right, Nat.mod_eq_of_lt hs]
    rw [hmod]
    have harith : 0 + 1 + slack = slack + 1 := by omega
    rw [harith, run_step m slack _ rfl, adv_wrap_last]
    simp [midState]
  | succ d ih =>
    intro hd slack
    set n := (mscWin m i).blocks.length with hn
    have hj1 : 1 ≤ n - (d + 1) := by omega
    have hj2 : n - (d + 1) < n := by omega
    have hbne : (s + (n - (d + 1))) % n ≠ s := rot_mod_ne s (n - (d + 1)) n hs hj1 hj2
    have hblt : (s + (n - (d + 1))) % n < n := Nat.mod_lt _ (by omega)
    have harith : d + 1 + 1 + slack = (d + 1 + slack) + 1 := by omega
    rw [harith, run_step m _ _ rfl]
    rw [adv_wrap_mid m w0 i off s _ hblt hbne]
    have hsucc : ((s + (n - (d + 1))) % n + 1) % n = (s + (n - d)) % n := by
      rw [modSuccEq]
      congr 1
      omega
    rw [hsucc, ih (by omega) slack]
    have harg : ∀ t : Nat, s + (n - (d + 1)) + (t + 1) = s + (n - d) + t := by
      intro t; omega
    simp only [Prod.mk.injEq]
    refine ⟨?_, trivial⟩
    rw [List.range_succ_eq_map, List.map_cons, List.map_map]
    simp only [List.cons_append, Nat.add_zero]
    congr 1
    congr 1
    congr 1
    refine List.map_congr_left ?_
    intro t _
    dsimp only [Function.comp_apply]
    rw [← harg t]

lemma winVisitsWrapped_length (i s n : Nat) (hn : 1 ≤ n) :
    (winVisitsWrapped i s n).length = n + 1 := by
  simp [winVisitsWrapped]
  omega

lemma run_window_wrapped (m : Msc) (w0 i off : Nat)
    (hblk : (mscWin m i).blocks ≠ [])
    (hwrap : msc_block_wrapped (((mscWin m i).blocks.getD
        (msc_win_oldest_block (mscWin m i)) default)).bdesc = true) :
    ∀ slack,
      msc_iter_run m (((mscWin m i).blocks.length + 1) + slack)
          (winStartState m w0 i off)
        = (winVisitsWrapped i (msc_win_oldest_block (mscWin m i))
              (mscWin m i).blocks.length
             ++ (msc_iter_run m slack
                  (msc_iter_win_advance m
                    (midState w0 i off (msc_win_oldest_block (mscWin m i) : Int)
                      (msc_win_oldest_block (mscWin m i)) 0))).1,
           (msc_iter_run m slack
              (msc_iter_win_advance m
                (midState w0 i off (msc_win_oldest_block (mscWin m i) : Int)
                  (msc_win_oldest_block (mscWin m i)) 0))).2) := by
  intro slack
  set s := msc_win_oldest_block (mscWin m i) with hsdef
  set n := (mscWin m i).blocks.length with hndef
  have hs : s < n := msc_win_oldest_block_lt _ hblk
  have hn : 1 ≤ n := by omega
  rw [winStartState_val, ← hsdef, if_pos hwrap]
  have harith : n + 1 + slack = (n + slack) + 1 := by omega
  rw [harith, run_step m _ _ rfl]
  rw [show (midState w0 i off (s : Int) s 2) = midState w0 i off (s : Int) s 2 from rfl]
  rw [adv_wrap_first m w0 i off s hs]
  have hone : n - (n - 1) = 1 := by omega
  have hblock : (s + 1) % n = (s + (n - (n - 1))) % n := by rw [hone]
  rw [hblock]
  have hchain := run_wrap_mid m w0 i off s hs (n - 1) (by omega) slack
  rw [show (n - 1) + 1 + slack = n + slack from by omega] at hchain
  rw [hchain]
  simp only [Prod.mk.injEq]
  refine ⟨?_, trivial⟩
  simp only [midState, winVisitsWrapped, hone, List.cons_append, List.append_assoc]

lemma nwVisitsGo_succ (blocks : List MscBlock) (s b rem : Nat) :
    nwVisitsGo blocks s b (rem + 1)
      = if msc_block_last_written (blocks.getD b default).bdesc then [b]
        else
          if (if b + 1 = blocks.length then 0 else b + 1) = s then [b]
          else b :: nwVisitsGo blocks s (if b + 1 = blocks.length then 0 else b + 1) rem := by
  rfl

lemma run_plain_chain (m : Msc) (w0 i off s : Nat)
    (hs : s < (mscWin m i).blocks.length) :
    ∀ d j, j + d = (mscWin m i).blocks.length → j < (mscWin m i).blocks.length →
      ∀ slack,
      ∃ a : MscIter, a.startWinOpt = some w0 ∧ a.win = i ∧ a.offset = off
        ∧ a.blockOff = 0 ∧ a.eof = 0
        ∧ msc_iter_run m
            ((nwVisitsGo (mscWin m i).blocks s
                ((s + j) % (mscWin m i).blocks.length)
                ((mscWin m i).blocks.length - j)).length + slack)
            (midState w0 i off (s : Int) ((s + j) % (mscWin m i).blocks.length) 0)
          = ((nwVisitsGo (mscWin m i).blocks s
                ((s + j) % (mscWin m i).blocks.length)
                ((mscWin m i).blocks.length - j)).map (fun b => (i, b, 0))
               ++ (msc_iter_run m slack (msc_iter_win_advance m a)).1,
             (msc_iter_run m slack (msc_iter_win_advance m a)).2) := by
  intro d
  induction d with
  | zero => intro j hjd hj; omega
  | succ d ih =>
    intro j hjd hj slack
    set n := (mscWin m i).blocks.length with hndef
    set b := (s + j) % n with hbdef
    have hblt : b < n := Nat.mod_lt _ (by omega)
    have hrem : n - j = d + 1 := by omega
    have hsucc : (b + 1) % n = (s + (j + 1)) % n := by
      rw [hbdef]
      exact modSuccEq (s + j) n
    have hifb : (if b + 1 = (mscWin m i).blocks.length then 0 else b + 1) = (b + 1) % n := by
      rw [← hndef]
      exact wrapIdxEq b n hblt
    rw [hrem]
    by_cases hlw : msc_block_last_written (((mscWin m i).blocks.getD b default)).bdesc = true
    · refine ⟨midState w0 i off (s : Int) b 0, rfl, rfl, rfl, rfl, rfl, ?_⟩
      rw [nwVisitsGo_succ, if_pos hlw]
      have harith : ([b] : List Nat).length + slack = slack + 1 := by
        simp
        omega
      rw [harith, run_step m _ _ rfl, adv_plain_lw m w0 i off s b hlw]
      simp [midState]
    · have hlwf : msc_block_last_written (((mscWin m i).blocks.getD b default)).bdesc = false := by
        simpa using hlw
      by_cases hb2s : (b + 1) % n = s
      · refine ⟨midState w0 i off (s : Int) ((b + 1) % n) 0, rfl, rfl, rfl, rfl, rfl, ?_⟩
        rw [nwVisitsGo_succ, if_neg (by rw [hlwf]; exact Bool.false_ne_true),
          if_pos (by rw [hifb]; exact hb2s)]
        have harith : ([b] : List Nat).length + slack = slack + 1 := by
          simp
          omega
        rw [harith, run_step m _ _ rfl, adv_plain_step m w0 i off s b hblt hlwf,
          if_pos hb2s]
        simp [midState]
      · have hj1 : j + 1 < n := by
          rcases Nat.lt_or_ge (j + 1) n with h | h
          · exact h
          · exfalso
            have hj1n : j + 1 = n := by omega
            apply hb2s
            rw [hsucc, hj1n, Nat.add_mod_right, Nat.mod_eq_of_lt hs]
        obtain ⟨a, ha1, ha2, ha3, ha4, ha5, ha6⟩ := ih (j + 1) (by omega) hj1 slack
        refine ⟨a, ha1, ha2, ha3, ha4, ha5, ?_⟩
        rw [nwVisitsGo_succ, if_neg (by rw [hlwf]; exact Bool.false_ne_true),
          if_neg (by rw [hifb, hsucc]; intro hcon; exact hb2s (by rw [hsucc]; exact hcon)),
          hifb, hsucc]
        have hrem2 : n - (j + 1) = d := by omega
        rw [hrem2] at ha6
        have harith : (b :: nwVisitsGo (mscWin m i).blocks s ((s + (j + 1)) % n) d).length + slack
            = ((nwVisitsGo (mscWin m i).blocks s ((s + (j + 1)) % n) d).length + slack) + 1 := by
          simp
          omega
        rw [harith, run_step m _ _ rfl, adv_plain_step m w0 i off s b hblt hlwf,
          if_neg (by rw [hsucc]; intro hcon; exact hb2s (by rw [hsucc]; exact hcon)),
          hsucc, ha6]
        simp [midState]

lemma run_window_target (m : Msc) (w0 i off : Nat)
    (hblk : (mscWin m i).blocks ≠ []) (slack : Nat) :
    ∃ itE, advTarget m w0 i off itE ∧
      msc_iter_run m ((winVisits i (mscWin m i)).length + slack)
          (winStartState m w0 i off)
        = (winVisits i (mscWin m i) ++ (msc_iter_run m slack itE).1,
           (msc_iter_run m slack itE).2) := by
  set s := msc_win_oldest_block (mscWin m i) with hsdef
  set n := (mscWin m i).blocks.length with hndef
  have hs : s < n := msc_win_oldest_block_lt _ hblk
  by_cases hwrap : msc_block_wrapped (((mscWin m i).blocks.getD s default)).bdesc = true
  · refine ⟨msc_iter_win_advance m (midState w0 i off (s : Int) s 0),
      winAdv_target m w0 i off _ rfl rfl rfl rfl rfl, ?_⟩
    have hv : winVisits i (mscWin m i) = winVisitsWrapped i s n := by
      rw [winVisits]
      rw [if_pos hwrap]
    rw [hv, winVisitsWrapped_length i s n (by omega)]
    exact run_window_wrapped m w0 i off hblk hwrap slack
  · have hwrapf : msc_block_wrapped (((mscWin m i).blocks.getD s default)).bdesc = false := by
      simpa using hwrap
    obtain ⟨a, ha1, ha2, ha3, ha4, ha5, ha6⟩ :=
      run_plain_chain m w0 i off s hs n 0 (by omega) (by omega) slack
    have h0 : (s + 0) % n = s := by
      rw [Nat.add_zero, Nat.mod_eq_of_lt hs]
    rw [h0, Nat.sub_zero] at ha6
    refine ⟨msc_iter_win_advance m a,
      winAdv_target m w0 i off a ha1 ha2 ha3 ha4 ha5, ?_⟩
    have hv : winVisits i (mscWin m i)
        = (nwVisitsGo (mscWin m i).blocks s s n).map (fun b => (i, b, 0)) := by
      rw [winVisits]
      rw [if_neg (by rw [hwrapf]; exact Bool.false_ne_true)]
    rw [hv, List.length_map]
    rw [winStartState_val, ← hsdef, if_neg (by rw [hwrapf]; exact Bool.false_ne_true)]
    exact ha6

/-- Visits of the remaining lap, starting k windows after w0. -/
def lapSpecFrom (m : Msc) (w0 k : Nat) : List (Nat × Nat × Nat) :=
  (List.range (m.winList.length - k)).flatMap
    (fun t => winVisits ((w0 + k + t) % m.winList.length)
        (mscWin m ((w0 + k + t) % m.winList.length)))

lemma lapSpecFrom_zero (m : Msc) (w0 : Nat) :
    lapSpecFrom m w0 0 = iterLapSpec m w0 := rfl

lemma lapSpecFrom_succ (m : Msc) (w0 k : Nat) (hk : k < m.winList.length) :
    lapSpecFrom m w0 k
      = winVisits ((w0 + k) % m.winList.length)
          (mscWin m ((w0 + k) % m.winList.length))
          ++ lapSpecFrom m w0 (k + 1) := by
  unfold lapSpecFrom
  have hd : m.winList.length - k = (m.winList.length - (k + 1)) + 1 := by omega
  rw [hd, List.range_succ_eq_map, List.flatMap_cons, Nat.add_zero]
  congr 1
  rw [List.flatMap_def, List.flatMap_def, List.map_map]
  congr 1
  refine List.map_congr_left ?_
  intro t _
  simp only [Function.comp_apply]
  rw [show w0 + (k + 1) + t = w0 + k + (t + 1) from by omega]

lemma mscWin_mem (m : Msc) (i : Nat) (hi : i < m.winList.length) :
    mscWin m i ∈ m.winList := by
  unfold mscWin
  rw [List.getD_eq_getElem m.winList default hi]
  exact List.getElem_mem hi

lemma msc_next_window_mod (m : Msc) (i : Nat) (hi : i < m.winList.length) :
    msc_next_window m i = (i + 1) % m.winList.length := by
  unfold msc_next_window msc_is_last_win
  rw [← wrapIdxEq i _ hi]
  by_cases h : i + 1 = m.winList.length
  · simp [h]
  · simp [h]

lemma lap_chain (m : Msc) (w0 : Nat)
    (hblks : ∀ w ∈ m.winList, w.blocks ≠ []) (hw0 : w0 < m.winList.length) :
    ∀ d k, 1 ≤ d → k + d = m.winList.length → ∀ off slack,
      (msc_iter_run m ((lapSpecFrom m w0 k).length + slack)
          (winStartState m w0 ((w0 + k) % m.winList.length) off)).1
        = lapSpecFrom m w0 k
      ∧ (msc_iter_run m ((lapSpecFrom m w0 k).length + slack)
          (winStartState m w0 ((w0 + k) % m.winList.length) off)).2.eof = 1
      ∧ (msc_iter_run m ((lapSpecFrom m w0 k).length + slack)
          (winStartState m w0 ((w0 + k) % m.winList.length) off)).2.win = w0
      ∧ (msc_iter_run m ((lapSpecFrom m w0 k).length + slack)
          (winStartState m w0 ((w0 + k) % m.winList.length) off)).2.startWinOpt
          = some w0 := by
  intro d
  induction d with
  | zero => intro k h1 _ _ _; omega
  | succ d ih =>
    intro k _ hkd off slack
    have hW : 0 < m.winList.length := by omega
    have hk : k < m.winList.length := by omega
    have hi : (w0 + k) % m.winList.length < m.winList.length := Nat.mod_lt _ hW
    have hblki : (mscWin m ((w0 + k) % m.winList.length)).blocks ≠ [] :=
      hblks _ (mscWin_mem m _ hi)
    have hnext : msc_next_window m ((w0 + k) % m.winList.length)
        = (w0 + k + 1) % m.winList.length := by
      rw [msc_next_window_mod m _ hi, modSuccEq]
    obtain ⟨itE, hadv, hrun⟩ :=
      run_window_target m w0 ((w0 + k) % m.winList.length) off hblki
        ((lapSpecFrom m w0 (k + 1)).length + slack)
    rw [lapSpecFrom_succ m w0 k hk, List.length_append, Nat.add_assoc, hrun]
    by_cases hend : d = 0
    · subst hend
      have hkW : k + 1 = m.winList.length := by omega
      have hnw0 : msc_next_window m ((w0 + k) % m.winList.length) = w0 := by
        rw [hnext, show w0 + k + 1 = w0 + m.winList.length from by omega,
          Nat.add_mod_right, Nat.mod_eq_of_lt hw0]
      obtain ⟨he1, he2, he3⟩ := hadv.1 hnw0
      have hL2 : lapSpecFrom m w0 (k + 1) = [] := by
        unfold lapSpecFrom
        rw [hkW]
        simp
      rw [hL2]
      rw [msc_iter_run_eof m _ itE (by omega)]
      exact ⟨by simp, by simpa using he1, by simpa using he2, by simpa using he3⟩
    · have hne : msc_next_window m ((w0 + k) % m.winList.length) ≠ w0 := by
        rw [hnext, show w0 + k + 1 = w0 + (k + 1) from by omega]
        exact rot_mod_ne w0 (k + 1) m.winList.length hw0 (by omega) (by omega)
      have hitE : itE = winStartState m w0 ((w0 + (k + 1)) % m.winList.length) off := by
        rw [hadv.2 hne, hnext, show w0 + k + 1 = w0 + (k + 1) from by omega]
      rw [hitE]
      obtain ⟨g1, g2, g3, g4⟩ := ih (k + 1) (by omega) (by omega) off slack
      exact ⟨by simp [g1], by simpa using g2, by simpa using g3, by simpa using g4⟩

lemma winVisits_fst (i : Nat) (w : MscWindow) :
    ∀ v ∈ winVisits i w, v.1 = i := by
  intro v hv
  simp only [winVisits] at hv
  split at hv
  · unfold winVisitsWrapped at hv
    rcases List.mem_cons.mp hv with h | hv2
    · rw [h]
    · rcases List.mem_append.mp hv2 with h | h
      · obtain ⟨k, _, hk⟩ := List.mem_map.mp h
        rw [← hk]
      · rw [List.mem_singleton.mp h]
  · obtain ⟨b, _, h⟩ := List.mem_map.mp hv
    rw [← h]

lemma winVisits_ne_nil (i : Nat) (w : MscWindow) (hb : w.blocks ≠ []) :
    winVisits i w ≠ [] := by
  simp only [winVisits]
  split
  · simp [winVisitsWrapped]
  · have hn : w.blocks.length = (w.blocks.length - 1) + 1 := by
      have := List.length_pos.mpr hb
      omega
    rw [hn, nwVisitsGo_succ]
    split
    · simp
    · split <;> split <;> simp

lemma countP_snd_le_one :
    ∀ (l : List (Nat × Nat × Nat)) (b : Nat),
      (l.map (fun v => v.2.1)).Nodup →
      l.countP (fun v => v.2.1 == b) ≤ 1 := by
  intro l
  induction l with
  | nil => intro b _; simp
  | cons v l ih =>
    intro b hnd
    rw [List.map_cons, List.nodup_cons] at hnd
    rw [List.countP_cons]
    by_cases hv : v.2.1 = b
    · have hz : l.countP (fun u => u.2.1 == b) = 0 := by
        rw [List.countP_eq_zero]
        intro u hu hub
        apply hnd.1
        rw [hv, ← (by simpa using hub : u.2.1 = b)]
        exact List.mem_map_of_mem _ hu
      simp [hz, hv]
    · have : (v.2.1 == b) = false := by simpa using hv
      simp only [this]
      simpa using ih b hnd.2

lemma winVisitsWrapped_filter (i s n : Nat) (hs : s < n) :
    (winVisitsWrapped i s n).filter (fun v => v.1 == i && v.2.1 == s)
      = [(i, s, 2), (i, s, 1)] := by
  unfold winVisitsWrapped
  have hmid : ((List.range (n - 1)).map (fun k => (i, (s + 1 + k) % n, 1))).filter
      (fun v => v.1 == i && v.2.1 == s) = [] := by
    rw [List.filter_eq_nil_iff]
    intro v hv
    simp only [List.mem_map, List.mem_range] at hv
    obtain ⟨k, hk, hvk⟩ := hv
    rw [← hvk]
    have : (s + 1 + k) % n ≠ s := by
      rw [show s + 1 + k = s + (1 + k) from by omega]
      exact rot_mod_ne s (1 + k) n hs (by omega) (by omega)
    simp [this]
  simp only [List.filter_cons, List.filter_append, hmid]
  simp

lemma winVisitsWrapped_countP_ne (i s n b : Nat) (hs : s < n) (hb : b ≠ s) :
    (winVisitsWrapped i s n).countP (fun v => v.1 == i && v.2.1 == b) ≤ 1 := by
  unfold winVisitsWrapped
  have hhead : (((i, s, 2) : Nat × Nat × Nat).1 == i && ((i, s, 2) : Nat × Nat × Nat).2.1 == b) = false := by
    simp
    intro _
    omega
  have hlast : (((i, s, 1) : Nat × Nat × Nat).1 == i && ((i, s, 1) : Nat × Nat × Nat).2.1 == b) = false := by
    simp
    intro _
    omega
  have hmid : ((List.range (n - 1)).map (fun k => (i, (s + 1 + k) % n, 1))).countP
      (fun v => v.1 == i && v.2.1 == b) ≤ 1 := by
    have hmono : ((List.range (n - 1)).map (fun k => (i, (s + 1 + k) % n, 1))).countP
        (fun v => v.1 == i && v.2.1 == b)
        ≤ ((List.range (n - 1)).map (fun k => (i, (s + 1 + k) % n, 1))).countP
            (fun v => v.2.1 == b) := by
      apply List.countP_mono_left
      intro v _ hp
      exact (Bool.and_eq_true _ _ ▸ hp).2
    refine le_trans hmono ?_
    apply countP_snd_le_one
    rw [List.map_map]
    have heq : ((fun v : Nat × Nat × Nat => v.2.1) ∘ fun k => (i, (s + 1 + k) % n, 1))
        = fun k => (s + 1 + k) % n := by
      funext k
      rfl
    rw [heq]
    apply List.Nodup.map_on ?_ (List.nodup_range _)
    intro k1 hk1 k2 hk2 hkeq
    simp only [List.mem_range] at hk1 hk2
    exact rot_mod_inj (s + 1) n k1 k2 (by omega) (by omega) hkeq
  simp only [List.countP_cons, List.countP_append, hhead, hlast]
  simpa using hmid

lemma nwVisitsGo_shape (blocks : List MscBlock) (s : Nat) (hs : s < blocks.length) :
    ∀ d j, j + d = blocks.length → j < blocks.length →
      ∀ x ∈ nwVisitsGo blocks s ((s + j) % blocks.length) (blocks.length - j),
        ∃ t, j ≤ t ∧ t < blocks.length ∧ x = (s + t) % blocks.length := by
  intro d
  induction d with
  | zero => intro j hjd hj; omega
  | succ d ih =>
    intro j hjd hj x hx
    set n := blocks.length with hndef
    set b := (s + j) % n with hbdef
    have hblt : b < n := Nat.mod_lt _ (by omega)
    have hrem : n - j = d + 1 := by omega
    have hsucc : (b + 1) % n = (s + (j + 1)) % n := by
      rw [hbdef]
      exact modSuccEq (s + j) n
    have hifb : (if b + 1 = blocks.length then 0 else b + 1) = (b + 1) % n := by
      rw [← hndef]
      exact wrapIdxEq b n hblt
    rw [hrem, nwVisitsGo_succ] at hx
    by_cases hlw : msc_block_last_written ((blocks.getD b default)).bdesc = true
    · rw [if_pos hlw] at hx
      exact ⟨j, le_refl j, by omega, (List.mem_singleton.mp hx).symm ▸ rfl⟩
    · rw [if_neg hlw] at hx
      by_cases hb2s : (if b + 1 = blocks.length then 0 else b + 1) = s
      · rw [if_pos hb2s] at hx
        exact ⟨j, le_refl j, by omega, (List.mem_singleton.mp hx).symm ▸ rfl⟩
      · rw [if_neg hb2s] at hx
        rcases List.mem_cons.mp hx with h | h
        · exact ⟨j, le_refl j, by omega, h⟩
        · have hj1 : j + 1 < n := by
            rcases Nat.lt_or_ge (j + 1) n with hlt | hge
            · exact hlt
            · exfalso
              apply hb2s
              rw [hifb, hsucc, show j + 1 = n from by omega, Nat.add_mod_right,
                Nat.mod_eq_of_lt hs]
          rw [hifb, hsucc] at h
          have hrem2 : d = n - (j + 1) := by omega
          rw [hrem2] at h
          obtain ⟨t, ht1, ht2, ht3⟩ := ih (j + 1) (by omega) hj1 x h
          exact ⟨t, by omega, ht2, ht3⟩

lemma nwVisitsGo_nodup (blocks : List MscBlock) (s : Nat) (hs : s < blocks.length) :
    ∀ d j, j + d = blocks.length → j < blocks.length →
      (nwVisitsGo blocks s ((s + j) % blocks.length) (blocks.length - j)).Nodup := by
  intro d
  induction d with
  | zero => intro j hjd hj; omega
  | succ d ih =>
    intro j hjd hj
    set n := blocks.length with hndef
    set b := (s + j) % n with hbdef
    have hblt : b < n := Nat.mod_lt _ (by omega)
    have hrem : n - j = d + 1 := by omega
    have hsucc : (b + 1) % n = (s + (j + 1)) % n := by
      rw [hbdef]
      exact modSuccEq (s + j) n
    have hifb : (if b + 1 = blocks.length then 0 else b + 1) = (b + 1) % n := by
      rw [← hndef]
      exact wrapIdxEq b n hblt
    rw [hrem, nwVisitsGo_succ]
    by_cases hlw : msc_block_last_written ((blocks.getD b default)).bdesc = true
    · rw [if_pos hlw]
      exact List.nodup_singleton _
    · rw [if_neg hlw]
      by_cases hb2s : (if b + 1 = blocks.length then 0 else b + 1) = s
      · rw [if_pos hb2s]
        exact List.nodup_singleton _
      · rw [if_neg hb2s]
        have hj1 : j + 1 < n := by
          rcases Nat.lt_or_ge (j + 1) n with hlt | hge
          · exact hlt
          · exfalso
            apply hb2s
            rw [hifb, hsucc, show j + 1 = n from by omega, Nat.add_mod_right,
              Nat.mod_eq_of_lt hs]
        rw [hifb, hsucc]
        have hrem2 : d = n - (j + 1) := by omega
        rw [hrem2]
        refine List.nodup_cons.mpr ⟨?_, ih (j + 1) (by omega) hj1⟩
        intro hmem
        obtain ⟨t, ht1, ht2, ht3⟩ :=
          nwVisitsGo_shape blocks s hs (n - (j + 1)) (j + 1) (by omega) hj1 b hmem
        rw [hbdef] at ht3
        have := rot_mod_inj s n j t (by omega) (by omega) ht3
        omega

lemma winVisits_plain_countP (i b : Nat) (w : MscWindow) (hb : w.blocks ≠ [])
    (hwrapf : msc_block_wrapped ((w.blocks.getD (msc_win_oldest_block w) default)).bdesc
      = false) :
    (winVisits i w).countP (fun v => v.1 == i && v.2.1 == b) ≤ 1 := by
  have hn : 0 < w.blocks.length := List.length_pos.mpr hb
  have hs : msc_win_oldest_block w < w.blocks.length := msc_win_oldest_block_lt w hb
  simp only [winVisits]
  rw [if_neg (by rw [hwrapf]; exact Bool.false_ne_true)]
  have hmono := List.countP_mono_left
    (l := (nwVisitsGo w.blocks (msc_win_oldest_block w) (msc_win_oldest_block w)
      w.blocks.length).map (fun x => (i, x, 0)))
    (p := fun v : Nat × Nat × Nat => v.1 == i && v.2.1 == b)
    (q := fun v : Nat × Nat × Nat => v.2.1 == b)
    (fun x _ hp => (Bool.and_eq_true _ _ ▸ hp).2)
  refine le_trans hmono ?_
  apply countP_snd_le_one
  rw [List.map_map]
  have heq : ((fun v : Nat × Nat × Nat => v.2.1) ∘ fun x => (i, x, 0)) = fun x : Nat => x := by
    funext x
    rfl
  rw [heq, List.map_id_fun']
  have h0 : (msc_win_oldest_block w + 0) % w.blocks.length = msc_win_oldest_block w := by
    rw [Nat.add_zero, Nat.mod_eq_of_lt hs]
  have := nwVisitsGo_nodup w.blocks (msc_win_oldest_block w) hs w.blocks.length 0
    (by omega) (by omega)
  rw [h0, Nat.sub_zero] at this
  exact this

lemma winVisits_filter_other (i2 i : Nat) (w : MscWindow) (q : (Nat × Nat × Nat) → Bool)
    (hne : i2 ≠ i) :
    (winVisits i2 w).filter (fun v => v.1 == i && q v) = [] := by
  rw [List.filter_eq_nil_iff]
  intro v hv
  have := winVisits_fst i2 w v hv
  simp [this, hne]

lemma filter_flatMap_nil (p : (Nat × Nat × Nat) → Bool) (f : Nat → List (Nat × Nat × Nat)) :
    ∀ ks : List Nat, (∀ k ∈ ks, (f k).filter p = []) →
      (ks.flatMap f).filter p = [] := by
  intro ks
  induction ks with
  | nil => intro _; simp
  | cons k ks ih =>
    intro h
    rw [List.flatMap_cons, List.filter_append, h k (by simp), ih (fun x hx => h x (by simp [hx]))]
    rfl

lemma filter_flatMap_single (p : (Nat × Nat × Nat) → Bool) (f : Nat → List (Nat × Nat × Nat)) :
    ∀ (ks : List Nat) (k0 : Nat), k0 ∈ ks → ks.Nodup →
      (∀ k ∈ ks, k ≠ k0 → (f k).filter p = []) →
      (ks.flatMap f).filter p = (f k0).filter p := by
  intro ks
  induction ks with
  | nil => intro k0 h; simp at h
  | cons k ks ih =>
    intro k0 hmem hnd hz
    rw [List.flatMap_cons, List.filter_append]
    rcases List.mem_cons.mp hmem with h | h
    · subst h
      have hzk : ∀ x ∈ ks, (f x).filter p = [] := by
        intro x hx
        refine hz x (by simp [hx]) ?_
        intro hcon
        subst hcon
        exact (List.nodup_cons.mp hnd).1 hx
      rw [filter_flatMap_nil p f ks hzk]
      simp
    · have hk : k ≠ k0 := by
        intro hcon
        subst hcon
        exact (List.nodup_cons.mp hnd).1 h
      rw [hz k (by simp) hk, ih k0 h (List.nodup_cons.mp hnd).2
        (fun x hx hxne => hz x (by simp [hx]) hxne)]
      rfl

lemma countP_flatMap_single (p : (Nat × Nat × Nat) → Bool) (f : Nat → List (Nat × Nat × Nat))
    (ks : List Nat) (k0 : Nat) (h1 : k0 ∈ ks) (h2 : ks.Nodup)
    (h3 : ∀ k ∈ ks, k ≠ k0 → (f k).filter p = []) :
    (ks.flatMap f).countP p = (f k0).countP p := by
  rw [List.countP_eq_length_filter, List.countP_eq_length_filter,
    filter_flatMap_single p f ks k0 h1 h2 h3]

lemma oldestWindowGo_lt (nwsa : Nat) (ws : List MscWindow) (idx found r : Nat)
    (h : oldestWindowGo nwsa ws idx found = some r) : r < idx + ws.length := by
  by_cases hf : found = 0
  · subst hf
    rw [oldestWindowGo_scan] at h
    cases hj : ws.findIdx? (winIsMatch nwsa) with
    | none => rw [hj] at h; simp at h
    | some j =>
      rw [hj] at h
      simp only [Option.map_eq_some'] at h
      obtain ⟨d2, hd2, hr⟩ := h
      have hjl := findIdx?_lt_length _ _ _ hj
      have hdl := findIdx?_lt_length _ _ _ hd2
      rw [List.length_drop] at hdl
      omega
  · rw [oldestWindowGo_found nwsa ws idx found hf] at h
    simp only [Option.map_eq_some'] at h
    obtain ⟨d, hd, hr⟩ := h
    have := findIdx?_lt_length _ _ _ hd
    omega

lemma msc_oldest_window_lt (m : Msc) (regNwsa w0 : Nat)
    (h : msc_oldest_window m regNwsa = some w0) (hne : m.winList ≠ []) :
    w0 < m.winList.length := by
  have hn : 0 < m.winList.length := List.length_pos.mpr hne
  unfold msc_oldest_window at h
  rw [if_neg hne] at h
  simp only [] at h
  cases hg : oldestWindowGo (if m.enabled then regNwsa else m.nwsa) m.winList 0 0 with
  | none =>
    rw [hg] at h
    simp at h
    omega
  | some r =>
    rw [hg] at h
    simp at h
    have := oldestWindowGo_lt _ _ _ _ _ hg
    omega

lemma msc_iter_win_start_init (m : Msc) (regNwsa w0 : Nat)
    (h : msc_oldest_window m regNwsa = some w0) :
    msc_iter_win_start m regNwsa msc_iter_init = (winStartState m w0 w0 0, 0) := by
  unfold msc_iter_win_start msc_iter_init winStartState
  rw [if_neg (by simp)]
  rw [h]

lemma iterLapSpec_filter_chunk (m : Msc) (w0 k : Nat)
    (hk : k < m.winList.length) (q : (Nat × Nat × Nat) → Bool) :
    (iterLapSpec m w0).filter
        (fun v => v.1 == (w0 + k) % m.winList.length && q v)
      = (winVisits ((w0 + k) % m.winList.length)
          (mscWin m ((w0 + k) % m.winList.length))).filter
          (fun v => v.1 == (w0 + k) % m.winList.length && q v) := by
  unfold iterLapSpec
  apply filter_flatMap_single _ _ (List.range m.winList.length) k
    (List.mem_range.mpr hk) (List.nodup_range _)
  intro k2 hk2 hne
  apply winVisits_filter_other
  intro hcon
  exact hne (rot_mod_inj w0 m.winList.length k2 k (List.mem_range.mp hk2) hk hcon)

lemma iterLapSpec_countP_chunk (m : Msc) (w0 k : Nat)
    (hk : k < m.winList.length) (q : (Nat × Nat × Nat) → Bool) :
    (iterLapSpec m w0).countP
        (fun v => v.1 == (w0 + k) % m.winList.length && q v)
      = (winVisits ((w0 + k) % m.winList.length)
          (mscWin m ((w0 + k) % m.winList.length))).countP
          (fun v => v.1 == (w0 + k) % m.winList.length && q v) := by
  unfold iterLapSpec
  apply countP_flatMap_single _ _ (List.range m.winList.length) k
    (List.mem_range.mpr hk) (List.nodup_range _)
  intro k2 hk2 hne
  apply winVisits_filter_other
  intro hcon
  exact hne (rot_mod_inj w0 m.winList.length k2 k (List.mem_range.mp hk2) hk hcon)

/-- C1: for every multi-mode buffer with a non-empty window list (every
window non-empty, as allocated), a consumption iterator started at the
oldest window's oldest block and repeatedly advanced by the block/window
advance rules produces exactly the one-lap visit sequence: it visits every
window (each window's visits form one contiguous chunk of the lap, windows
in ring order starting at the oldest), visits a wrap-flagged starting block
exactly twice — tail segment first (wrap counter 2), then as a normal block
(wrap counter 1) — and every other block at most once, sets its end-of-stream
flag exactly when the window advance returns to the starting window, and
never performs more than one lap (any additional fuel leaves the trace and
final state unchanged). -/
theorem C1_iterator_single_lap (m : Msc) (regNwsa w0 : Nat)
    (hwin : m.winList ≠ [])
    (hblks : ∀ w ∈ m.winList, w.blocks ≠ [])
    (hstart : msc_oldest_window m regNwsa = some w0) :
    (msc_iter_run m (iterFuel m w0) (msc_iter_win_start m regNwsa msc_iter_init).1).1
        = iterLapSpec m w0
    ∧ (∀ i, i < m.winList.length →
        ∃ v, v ∈ (msc_iter_run m (iterFuel m w0)
            (msc_iter_win_start m regNwsa msc_iter_init).1).1 ∧ v.1 = i)
    ∧ (∀ v, v ∈ (msc_iter_run m (iterFuel m w0)
          (msc_iter_win_start m regNwsa msc_iter_init).1).1 → v.1 < m.winList.length)
    ∧ (∀ k, k < m.winList.length →
        (msc_block_wrapped (((mscWin m ((w0 + k) % m.winList.length)).blocks.getD
            (msc_win_oldest_block (mscWin m ((w0 + k) % m.winList.length)))
            default)).bdesc = true →
          (msc_iter_run m (iterFuel m w0)
              (msc_iter_win_start m regNwsa msc_iter_init).1).1.filter
              (fun v => v.1 == (w0 + k) % m.winList.length
                && v.2.1 == msc_win_oldest_block (mscWin m ((w0 + k) % m.winList.length)))
            = [((w0 + k) % m.winList.length,
                 msc_win_oldest_block (mscWin m ((w0 + k) % m.winList.length)), 2),
               ((w0 + k) % m.winList.length,
                 msc_win_oldest_block (mscWin m ((w0 + k) % m.winList.length)), 1)])
        ∧ (∀ b, ¬(msc_block_wrapped (((mscWin m ((w0 + k) % m.winList.length)).blocks.getD
              (msc_win_oldest_block (mscWin m ((w0 + k) % m.winList.length)))
              default)).bdesc = true
              ∧ b = msc_win_oldest_block (mscWin m ((w0 + k) % m.winList.length))) →
            (msc_iter_run m (iterFuel m w0)
                (msc_iter_win_start m regNwsa msc_iter_init).1).1.countP
                (fun v => v.1 == (w0 + k) % m.winList.length && v.2.1 == b) ≤ 1))
    ∧ (msc_iter_run m (iterFuel m w0)
        (msc_iter_win_start m regNwsa msc_iter_init).1).2.eof = 1
    ∧ (msc_iter_run m (iterFuel m w0)
        (msc_iter_win_start m regNwsa msc_iter_init).1).2.win = w0
    ∧ (msc_iter_run m (iterFuel m w0)
        (msc_iter_win_start m regNwsa msc_iter_init).1).2.startWinOpt = some w0
    ∧ (∀ extra, msc_iter_run m (iterFuel m w0 + extra)
          (msc_iter_win_start m regNwsa msc_iter_init).1
        = msc_iter_run m (iterFuel m w0)
            (msc_iter_win_start m regNwsa msc_iter_init).1) := by
  have hw0 : w0 < m.winList.length := msc_oldest_window_lt m regNwsa w0 hstart hwin
  have hW : 0 < m.winList.length := List.length_pos.mpr hwin
  have hit0 : (msc_iter_win_start m regNwsa msc_iter_init).1 = winStartState m w0 w0 0 := by
    rw [msc_iter_win_start_init m regNwsa w0 hstart]
  have hmod0 : (w0 + 0) % m.winList.length = w0 := by
    rw [Nat.add_zero, Nat.mod_eq_of_lt hw0]
  obtain ⟨g1, g2, g3, g4⟩ :=
    lap_chain m w0 hblks hw0 m.winList.length 0 (by omega) (by omega) 0 1
  rw [hmod0, lapSpecFrom_zero] at g1 g2 g3 g4
  have hfuel : iterFuel m w0 = (iterLapSpec m w0).length + 1 := rfl
  have htr : (msc_iter_run m (iterFuel m w0)
      (msc_iter_win_start m regNwsa msc_iter_init).1).1 = iterLapSpec m w0 := by
    rw [hit0, hfuel]
    exact g1
  have heof : (msc_iter_run m (iterFuel m w0)
      (msc_iter_win_start m regNwsa msc_iter_init).1).2.eof = 1 := by
    rw [hit0, hfuel]
    exact g2
  have hfwin : (msc_iter_run m (iterFuel m w0)
      (msc_iter_win_start m regNwsa msc_iter_init).1).2.win = w0 := by
    rw [hit0, hfuel]
    exact g3
  have hfswo : (msc_iter_run m (iterFuel m w0)
      (msc_iter_win_start m regNwsa msc_iter_init).1).2.startWinOpt = some w0 := by
    rw [hit0, hfuel]
    exact g4
  refine ⟨htr, ?_, ?_, ?_, heof, hfwin, hfswo, ?_⟩
  · -- every window index below W is visited
    intro i hi
    obtain ⟨k, hk, hik⟩ := rot_mod_surj w0 m.winList.length i hW hi
    have hne : winVisits i (mscWin m i) ≠ [] :=
      winVisits_ne_nil i _ (hblks _ (mscWin_mem m i hi))
    obtain ⟨v, hv⟩ := List.exists_mem_of_ne_nil _ hne
    refine ⟨v, ?_, winVisits_fst i _ v hv⟩
    rw [htr]
    unfold iterLapSpec
    refine List.mem_flatMap.mpr ⟨k, List.mem_range.mpr hk, ?_⟩
    rw [hik]
    exact hv
  · -- every visit names a valid window index
    intro v hv
    rw [htr] at hv
    unfold iterLapSpec at hv
    obtain ⟨k, _, hvk⟩ := List.mem_flatMap.mp hv
    rw [winVisits_fst _ _ v hvk]
    exact Nat.mod_lt _ hW
  · -- per-window visit counts
    intro k hk
    have hi : (w0 + k) % m.winList.length < m.winList.length := Nat.mod_lt _ hW
    have hbne : (mscWin m ((w0 + k) % m.winList.length)).blocks ≠ [] :=
      hblks _ (mscWin_mem m _ hi)
    have hs : msc_win_oldest_block (mscWin m ((w0 + k) % m.winList.length))
        < (mscWin m ((w0 + k) % m.winList.length)).blocks.length :=
      msc_win_oldest_block_lt _ hbne
    constructor
    · intro hwrap
      rw [htr, iterLapSpec_filter_chunk m w0 k hk]
      have hv : winVisits ((w0 + k) % m.winList.length)
          (mscWin m ((w0 + k) % m.winList.length))
          = winVisitsWrapped ((w0 + k) % m.winList.length)
              (msc_win_oldest_block (mscWin m ((w0 + k) % m.winList.length)))
              (mscWin m ((w0 + k) % m.winList.length)).blocks.length := by
        simp only [winVisits]
        rw [if_pos hwrap]
      rw [hv]
      exact winVisitsWrapped_filter _ _ _ hs
    · intro b hnb
      rw [htr, iterLapSpec_countP_chunk m w0 k hk]
      by_cases hwrap : msc_block_wrapped (((mscWin m ((w0 + k) % m.winList.length)).blocks.getD
          (msc_win_oldest_block (mscWin m ((w0 + k) % m.winList.length)))
          default)).bdesc = true
      · have hbs : b ≠ msc_win_oldest_block (mscWin m ((w0 + k) % m.winList.length)) := by
          intro hcon
          exact hnb ⟨hwrap, hcon⟩
        have hv : winVisits ((w0 + k) % m.winList.length)
            (mscWin m ((w0 + k) % m.winList.length))
            = winVisitsWrapped ((w0 + k) % m.winList.length)
                (msc_win_oldest_block (mscWin m ((w0 + k) % m.winList.length)))
                (mscWin m ((w0 + k) % m.winList.length)).blocks.length := by
          simp only [winVisits]
          rw [if_pos hwrap]
        rw [hv]
        exact winVisitsWrapped_countP_ne _ _ _ b hs hbs
      · exact winVisits_plain_countP _ b _ hbne (by simpa using hwrap)
  · -- larger fuel changes nothing: the iterator never runs a second lap
    intro extra
    rw [msc_iter_run_add]
    rw [msc_iter_run_eof m extra _ (by rw [heof]; omega)]
    simp

/-- A concrete two-window buffer: window 0 holds three blocks with a wrap
(last written at index 2), window 1 holds two plain blocks; the saved
next-window start address points at window 1. -/
def mscC1 : Msc :=
  { winList :=
      [ { pgoff := 0, blocks :=
            [ { addr := 0x1000,
                bdesc := { sw_tag := 0, block_sz := 0, next_blk := 0, next_win := 0,
                           hwWrapped := true, hwLastWritten := false, valid_dw := 17 } },
              { addr := 0x1100,
                bdesc := { sw_tag := 0, block_sz := 0, next_blk := 0, next_win := 0,
                           hwWrapped := true, hwLastWritten := false, valid_dw := 17 } },
              { addr := 0x1200,
                bdesc := { sw_tag := 0, block_sz := 0, next_blk := 0, next_win := 0,
                           hwWrapped := true, hwLastWritten := true, valid_dw := 17 } } ] },
        { pgoff := 3, blocks :=
            [ { addr := 0x2000,
                bdesc := { sw_tag := 0, block_sz := 0, next_blk := 0, next_win := 0,
                           hwWrapped := false, hwLastWritten := false, valid_dw := 17 } },
              { addr := 0x2100,
                bdesc := { sw_tag := 0, block_sz := 0, next_blk := 0, next_win := 0,
                           hwWrapped := false, hwLastWritten := true, valid_dw := 17 } } ] } ],
    nrPages := 5, singleSz := 0, singleWrap := false, baseAllocated := true,
    nwsa := 0x2000, userCount := 0, nIters := 0, enabled := false, wrap := false,
    mode := MSC_MODE_MULTI }

/-- Witness for C1 at a concrete buffer: the iterator trace from the oldest
window equals the one-lap visit list and the final state flags end of
stream. -/
theorem C1_iterator_single_lap_witness :
    (msc_iter_run mscC1 (iterFuel mscC1 1)
        (msc_iter_win_start mscC1 0 msc_iter_init).1).1 = iterLapSpec mscC1 1
    ∧ (msc_iter_run mscC1 (iterFuel mscC1 1)
        (msc_iter_win_start mscC1 0 msc_iter_init).1).2.eof = 1 :=
  ⟨(C1_iterator_single_lap mscC1 0 1 (by decide) (by decide) (by decide)).1,
   (C1_iterator_single_lap mscC1 0 1 (by decide) (by decide)
      (by decide)).2.2.2.2.1⟩

/-- 2 ^ 64, the wrap modulus of the C size_t arithmetic in this driver. -/
def USZ : Nat := 18446744073709551616

/-- 2 ^ 32, the wrap modulus of 32-bit fields. -/
def U32 : Nat := 4294967296

/-- Unsigned 64-bit subtraction as C computes it (wrapping on underflow). -/
def usub (a b : Nat) : Nat := (a + USZ - b) % USZ

lemma usub_eq_sub (a b : Nat) (hb : b ≤ a) (ha : a < USZ) : usub a b = a - b := by
  unfold usub
  have h : a + USZ - b = (a - b) + USZ := by omega
  rw [h, Nat.add_mod_right, Nat.mod_eq_of_lt (by omega)]

/-- One sink invocation of msc_buffer_iterate: the iterator position and
state when the callback was issued, the remaining request length, the
intra-block offset, the source offset within the block page and the length
passed to the sink. -/
structure IterCall where
  winV : Nat
  blockV : Nat
  startBlkV : Int
  wrapV : Nat
  lenBefore : Nat
  offBefore : Nat
  srcOff : Nat
  tocopy : Nat
deriving Repr, DecidableEq, Inhabited

/-- Fuel amply covering the iterate loop: one iteration per possible block
advance. -/
def iterateFuel (m : Msc) : Nat :=
  (m.winList.map (fun w => w.blocks.length + 1)).sum + 2

/-- The tocopy base of the current iterator position, from the head of the
msc_buffer_iterate loop body: the (DATA_IN_PAGE - data_bytes) tail segment
when sitting on the starting block with wrap counter 2, the data_bytes valid
count otherwise. -/
def iterCopyBase (m : Msc) (it : MscIter) : Nat :=
  if Int.ofNat it.block = it.startBlock ∧ it.wrapCount = 2 then
    DATA_IN_PAGE - msc_data_sz (msc_iter_bdesc m it)
  else msc_data_sz (msc_iter_bdesc m it)

/-- The source offset within the block page before adding the intra-block
offset: just past the valid bytes for the wrap-counter-2 visit of the
starting block (src += data_bytes), the start of the data area otherwise. -/
def iterSrcBase (m : Msc) (it : MscIter) : Nat :=
  if Int.ofNat it.block = it.startBlock ∧ it.wrapCount = 2 then
    MSC_BDESC + msc_data_sz (msc_iter_bdesc m it)
  else MSC_BDESC

/-- The do-while loop of msc_buffer_iterate. The sink fn is given the call
index and the copy length and returns the number of bytes it could not
accept. Returns the call log, the remaining length and the final iterator. -/
def iterateGo (m : Msc) (fn : Nat → Nat → Nat) :
    Nat → MscIter → Nat → Nat → List IterCall × Nat × MscIter
  | 0, it, len, _ => ([], len, it)
  | fuel + 1, it, len, k =>
    let base := iterCopyBase m it
    let srcBase := iterSrcBase m it
    if base = 0 then
      let it2 := msc_iter_block_advance m it
      if it2.eof ≠ 0 then ([], len, it2)
      else if len = 0 then ([], len, it2)
      else iterateGo m fn fuel it2 len k
    else
      let tocopy1 := usub base it.blockOff
      let src := srcBase + it.blockOff
      let tocopy2 := if len < tocopy1 then len else tocopy1
      let adv1 := if len < tocopy1 then false else true
      let remaining := fn k tocopy2
      let advance := if remaining ≠ 0 then false else adv1
      let copied := usub tocopy2 remaining
      let len2 := usub len copied
      let it3 := { it with blockOff := (it.blockOff + copied) % U32,
                           offset := (it.offset + copied) % USZ }
      let call : IterCall :=
        { winV := it.win, blockV := it.block, startBlkV := it.startBlock,
          wrapV := it.wrapCount, lenBefore := len, offBefore := it.blockOff,
          srcOff := src, tocopy := tocopy2 }
      if advance = false then ([call], len2, it3)
      else
        let it4 := msc_iter_block_advance m it3
        if it4.eof ≠ 0 then ([call], len2, it4)
        else if len2 = 0 then ([call], len2, it4)
        else
          let res := iterateGo m fn fuel it4 len2 (k + 1)
          (call :: res.1, res.2)

/-- msc_buffer_iterate: start at the oldest window (no-op on an already
started iterator), then run the consumption loop; returns the call log, the
number of bytes scanned and the final iterator state. -/
def msc_buffer_iterate (m : Msc) (regNwsa : Nat) (it : MscIter) (size : Nat)
    (fn : Nat → Nat → Nat) : List IterCall × Nat × MscIter :=
  if it.eof ≠ 0 then ([], 0, it)
  else
    let ws := msc_iter_win_start m regNwsa it
    if ws.2 ≠ 0 then ([], 0, ws.1)
    else
      let res := iterateGo m fn (iterateFuel m) ws.1 size 0
      (res.1, size - res.2.1, res.2.2)

/-- Block descriptor named by a logged call. -/
def callBdesc (m : Msc) (c : IterCall) : MscBlockDesc :=
  ((mscWin m c.winV).blocks.getD c.blockV default).bdesc

lemma msc_iter_block_start_blockOff (m : Msc) (a : MscIter) :
    (msc_iter_block_start m a).blockOff = a.blockOff := by
  simp only [msc_iter_block_start]
  repeat' split
  all_goals rfl

lemma msc_iter_win_advance_blockOff (m : Msc) (a : MscIter) :
    (msc_iter_win_advance m a).blockOff = a.blockOff := by
  simp only [msc_iter_win_advance, msc_iter_block_start]
  repeat' split
  all_goals rfl

lemma msc_iter_block_advance_blockOff (m : Msc) (it : MscIter) :
    (msc_iter_block_advance m it).blockOff = 0 := by
  simp only [msc_iter_block_advance, msc_iter_win_advance, msc_iter_block_start]
  repeat' split
  all_goals rfl

lemma msc_iter_bdesc_valid_dw_lt (m : Msc)
    (hdw : ∀ w ∈ m.winList, ∀ blk ∈ w.blocks, blk.bdesc.valid_dw < U32)
    (it : MscIter) : (msc_iter_bdesc m it).valid_dw < U32 := by
  unfold msc_iter_bdesc
  by_cases hw : it.win < m.winList.length
  · by_cases hb : it.block < (mscWin m it.win).blocks.length
    · rw [List.getD_eq_getElem _ _ hb]
      exact hdw _ (mscWin_mem m it.win hw) _ (List.getElem_mem hb)
    · rw [List.getD_eq_default _ _
        (by omega : (mscWin m it.win).blocks.length ≤ it.block)]
      decide
  · have hwin : mscWin m it.win = default := by
      unfold mscWin
      exact List.getD_eq_default _ _ (by omega)
    rw [hwin]
    have hnil : (default : MscWindow).blocks = [] := rfl
    rw [hnil]
    simp [List.getD]
    decide

lemma iterCopyBase_lt (m : Msc)
    (hdw : ∀ w ∈ m.winList, ∀ blk ∈ w.blocks, blk.bdesc.valid_dw < U32)
    (it : MscIter) : iterCopyBase m it < USZ := by
  have hv := msc_iter_bdesc_valid_dw_lt m hdw it
  have hsz : msc_data_sz (msc_iter_bdesc m it) ≤ (msc_iter_bdesc m it).valid_dw * 4 := by
    unfold msc_data_sz
    split <;> omega
  have hU32 : U32 = 4294967296 := rfl
  have hUSZ : USZ = 18446744073709551616 := rfl
  have hD : DATA_IN_PAGE = 4032 := rfl
  unfold iterCopyBase
  split <;> omega

/-- The property claimed of every sink invocation: on the wrap-counter-2
visit of the starting block the copy length is the (page-data-size −
valid-byte-count) tail segment taken just past the valid bytes, otherwise it
is the valid-byte count at the start of the data area; both are reduced by
the intra-block offset and capped at the remaining request length. -/
def callSpec (m : Msc) (c : IterCall) : Prop :=
  (Int.ofNat c.blockV = c.startBlkV ∧ c.wrapV = 2 →
     c.tocopy = min c.lenBefore (DATA_IN_PAGE - msc_data_sz (callBdesc m c) - c.offBefore)
     ∧ c.srcOff = MSC_BDESC + msc_data_sz (callBdesc m c) + c.offBefore)
  ∧ (¬(Int.ofNat c.blockV = c.startBlkV ∧ c.wrapV = 2) →
     c.tocopy = min c.lenBefore (msc_data_sz (callBdesc m c) - c.offBefore)
     ∧ c.srcOff = MSC_BDESC + c.offBefore)

lemma iterateGo_calls (m : Msc) (fn : Nat → Nat → Nat)
    (hdw : ∀ w ∈ m.winList, ∀ blk ∈ w.blocks, blk.bdesc.valid_dw < U32) :
    ∀ fuel it len k, it.blockOff ≤ iterCopyBase m it →
      ∀ c ∈ (iterateGo m fn fuel it len k).1, callSpec m c := by
  intro fuel
  induction fuel with
  | zero => intro it len k _ c hc; simp [iterateGo] at hc
  | succ fuel ih =>
    intro it len k hoff c hc
    simp only [iterateGo] at hc
    by_cases hbase : iterCopyBase m it = 0
    · rw [if_pos hbase] at hc
      split at hc
      · simp at hc
      · split at hc
        · simp at hc
        · exact ih _ len k
            (by rw [msc_iter_block_advance_blockOff]; exact Nat.zero_le _) c hc
    · rw [if_neg hbase] at hc
      have hub : iterCopyBase m it < USZ := iterCopyBase_lt m hdw it
      have htc : usub (iterCopyBase m it) it.blockOff
          = iterCopyBase m it - it.blockOff := usub_eq_sub _ _ hoff hub
      have hmk : ∀ X : Nat, X = min len (iterCopyBase m it - it.blockOff) →
          callSpec m
            { winV := it.win, blockV := it.block, startBlkV := it.startBlock,
              wrapV := it.wrapCount, lenBefore := len, offBefore := it.blockOff,
              srcOff := iterSrcBase m it + it.blockOff, tocopy := X } := by
        intro X hX
        constructor
        · intro htail
          have hbase2 : iterCopyBase m it
              = DATA_IN_PAGE - msc_data_sz (msc_iter_bdesc m it) := by
            unfold iterCopyBase
            rw [if_pos htail]
          have hsrc2 : iterSrcBase m it
              = MSC_BDESC + msc_data_sz (msc_iter_bdesc m it) := by
            unfold iterSrcBase
            rw [if_pos htail]
          refine ⟨?_, ?_⟩
          · show X = min len (DATA_IN_PAGE - msc_data_sz (msc_iter_bdesc m it) - it.blockOff)
            rw [hX, hbase2]
          · show iterSrcBase m it + it.blockOff
                = MSC_BDESC + msc_data_sz (msc_iter_bdesc m it) + it.blockOff
            rw [hsrc2]
        · intro htail
          have hbase2 : iterCopyBase m it = msc_data_sz (msc_iter_bdesc m it) := by
            unfold iterCopyBase
            rw [if_neg htail]
          have hsrc2 : iterSrcBase m it = MSC_BDESC := by
            unfold iterSrcBase
            rw [if_neg htail]
          refine ⟨?_, ?_⟩
          · show X = min len (msc_data_sz (msc_iter_bdesc m it) - it.blockOff)
            rw [hX, hbase2]
          · show iterSrcBase m it + it.blockOff = MSC_BDESC + it.blockOff
            rw [hsrc2]
      by_cases hlt : len < usub (iterCopyBase m it) it.blockOff
      · simp only [if_pos hlt] at hc
        have hadv : (if fn k len ≠ 0 then false else false) = false := by
          split <;> rfl
        simp only [hadv] at hc
        simp at hc
        rw [hc]
        exact hmk len (by omega)
      · simp only [if_neg hlt] at hc
        by_cases hrem : fn k (usub (iterCopyBase m it) it.blockOff) ≠ 0
        · simp only [if_pos hrem] at hc
          simp at hc
          rw [hc]
          exact hmk _ (by omega)
        · simp only [if_neg hrem] at hc
          simp only [Bool.true_eq_false, if_false] at hc
          split at hc
          · simp at hc
            rw [hc]
            exact hmk _ (by omega)
          · split at hc
            · simp at hc
              rw [hc]
              exact hmk _ (by omega)
            · simp only [] at hc
              rcases List.mem_cons.mp hc with h | h
              · rw [h]
                exact hmk _ (by omega)
              · exact ih _ _ (k + 1)
                  (by rw [msc_iter_block_advance_blockOff]; exact Nat.zero_le _) c h

/-- C2: in msc_buffer_iterate, every sink invocation copies exactly the
claimed length: on the starting block of a wrapped window with wrap counter 2
the (page-data-size − valid-byte-count) tail segment taken just past the
valid-byte boundary, otherwise the block valid-byte count from the start of
the data area; both reduced by the iterator intra-block offset and capped at
the remaining requested length. -/
theorem C2_iterate_copy_lengths (m : Msc) (regNwsa : Nat) (it : MscIter)
    (size : Nat) (fn : Nat → Nat → Nat)
    (hdw : ∀ w ∈ m.winList, ∀ blk ∈ w.blocks, blk.bdesc.valid_dw < U32)
    (hoff : ((msc_iter_win_start m regNwsa it).1).blockOff
        ≤ iterCopyBase m ((msc_iter_win_start m regNwsa it).1)) :
    ∀ c ∈ (msc_buffer_iterate m regNwsa it size fn).1, callSpec m c := by
  intro c hc
  unfold msc_buffer_iterate at hc
  split at hc
  · simp at hc
  · simp only [] at hc
    split at hc
    · simp at hc
    · exact iterateGo_calls m fn hdw (iterateFuel m) _ size 0 hoff c hc

/-- Witness for C2: the first sink call of a concrete iterate run satisfies
the copy-length dichotomy. -/
theorem C2_iterate_copy_lengths_witness :
    callSpec mscC1
      ((msc_buffer_iterate mscC1 0 msc_iter_init 10 (fun _ _ => 0)).1.getD 0 default) :=
  C2_iterate_copy_lengths mscC1 0 msc_iter_init 10 (fun _ _ => 0) (by decide) (by decide)
    _ (by decide)

/-- Relink one window (body of the per-window loop of msc_buffer_relink):
every block descriptor is zeroed, then given the window tag or-ed with the
last-block tag on the last block, a next_blk pointer to the following block
(the first block for the last one), the next_win page frame number of the
following window's first block, and the fixed block_sz. -/
def relinkWindow (tagWin : Nat) (nextWin0Addr : Nat) (w : MscWindow) : MscWindow :=
  { w with blocks := (List.range w.blocks.length).map (fun bi =>
      let blk := w.blocks.getD bi default
      { blk with bdesc :=
          { sw_tag := tagWin ||| (if bi + 1 = w.blocks.length then MSC_SW_TAG_LASTBLK else 0),
            block_sz := PAGE_SIZE / 64,
            next_blk := (if bi + 1 = w.blocks.length then (w.blocks.getD 0 default).addr
                         else (w.blocks.getD (bi + 1) default).addr) >>> PAGE_SHIFT,
            next_win := nextWin0Addr >>> PAGE_SHIFT,
            hwWrapped := false, hwLastWritten := false, valid_dw := 0 } }) }

/-- msc_buffer_relink: link the block descriptors of every window into the
ring the hardware traverses; the last window carries the last-window tag and
points back to the first window. -/
def msc_buffer_relink (m : Msc) : Msc :=
  { m with winList := (List.range m.winList.length).map (fun wi =>
      relinkWindow (if wi + 1 = m.winList.length then MSC_SW_TAG_LASTWIN else 0)
        (winBlock0 (if wi + 1 = m.winList.length then mscWin m 0 else mscWin m (wi + 1))).addr
        (mscWin m wi)) }

/-- Block of a buffer at window index wi, block index bi. -/
def mscBlockAt (m : Msc) (wi bi : Nat) : MscBlock :=
  (mscWin m wi).blocks.getD bi default

/-- Index of the block of window wi whose page frame number the next-block
pointer of block (wi, bi) addresses. -/
def nextBlkIdx (m : Msc) (wi bi : Nat) : Option Nat :=
  (mscWin m wi).blocks.findIdx?
    (fun b => b.addr >>> PAGE_SHIFT == (mscBlockAt m wi bi).bdesc.next_blk)

/-- Index of the window whose first block page frame number the next-window
pointer of block (wi, bi) addresses. -/
def nextWinIdx (m : Msc) (wi bi : Nat) : Option Nat :=
  m.winList.findIdx?
    (fun w => (winBlock0 w).addr >>> PAGE_SHIFT == (mscBlockAt m wi bi).bdesc.next_win)

lemma getD_range_map {α : Type} [Inhabited α] (f : Nat → α) (n i : Nat) (h : i < n) :
    ((List.range n).map f).getD i default = f i := by
  rw [List.getD_eq_getElem _ _ (by simpa using h)]
  simp

lemma findIdx?_eq_of_unique {α : Type} [Inhabited α] (p : α → Bool) :
    ∀ (l : List α) (i : Nat), i < l.length → p (l.getD i default) = true →
      (∀ j, j < l.length → p (l.getD j default) = true → j = i) →
      l.findIdx? p = some i := by
  intro l
  induction l with
  | nil => intro i h; simp at h
  | cons a as ih =>
    intro i hi hp huniq
    rw [List.findIdx?_cons]
    cases i with
    | zero =>
      rw [if_pos (by simpa using hp)]
    | succ i2 =>
      have hpa : ¬ p a = true := by
        intro hcon
        have := huniq 0 (by simp) (by simpa using hcon)
        omega
      rw [if_neg hpa, List.findIdx?_succ]
      have := ih i2 (by simpa using hi) (by simpa using hp)
        (fun j hj hpj => by
          have := huniq (j + 1) (by simpa using hj) (by simpa using hpj)
          omega)
      rw [this]
      rfl

lemma relink_mscWin (m : Msc) (wi : Nat) (hwi : wi < m.winList.length) :
    mscWin (msc_buffer_relink m) wi
      = relinkWindow (if wi + 1 = m.winList.length then MSC_SW_TAG_LASTWIN else 0)
          (winBlock0 (if wi + 1 = m.winList.length then mscWin m 0 else mscWin m (wi + 1))).addr
          (mscWin m wi) := by
  show (msc_buffer_relink m).winList.getD wi default = _
  unfold msc_buffer_relink
  exact getD_range_map _ _ _ hwi

lemma relink_length (m : Msc) (wi : Nat) (hwi : wi < m.winList.length) :
    (mscWin (msc_buffer_relink m) wi).blocks.length = (mscWin m wi).blocks.length := by
  rw [relink_mscWin m wi hwi]
  simp [relinkWindow]

lemma relink_blockAt (m : Msc) (wi bi : Nat) (hwi : wi < m.winList.length)
    (hbi : bi < (mscWin m wi).blocks.length) :
    mscBlockAt (msc_buffer_relink m) wi bi =
      { addr := (mscBlockAt m wi bi).addr,
        bdesc :=
          { sw_tag := (if wi + 1 = m.winList.length then MSC_SW_TAG_LASTWIN else 0)
                        ||| (if bi + 1 = (mscWin m wi).blocks.length then MSC_SW_TAG_LASTBLK else 0),
            block_sz := PAGE_SIZE / 64,
            next_blk := (mscBlockAt m wi ((bi + 1) % (mscWin m wi).blocks.length)).addr
                          >>> PAGE_SHIFT,
            next_win := (winBlock0 (mscWin m ((wi + 1) % m.winList.length))).addr >>> PAGE_SHIFT,
            hwWrapped := false, hwLastWritten := false, valid_dw := 0 } } := by
  have hbmod : (bi + 1) % (mscWin m wi).blocks.length
      = if bi + 1 = (mscWin m wi).blocks.length then 0 else bi + 1 := by
    split
    case isTrue h => rw [h, Nat.mod_self]
    case isFalse h => exact Nat.mod_eq_of_lt (by omega)
  have hwmod : (wi + 1) % m.winList.length
      = if wi + 1 = m.winList.length then 0 else wi + 1 := by
    split
    case isTrue h => rw [h, Nat.mod_self]
    case isFalse h => exact Nat.mod_eq_of_lt (by omega)
  unfold mscBlockAt
  rw [relink_mscWin m wi hwi]
  unfold relinkWindow
  simp only []
  rw [getD_range_map _ _ _ hbi, hbmod, hwmod]
  by_cases hb : bi + 1 = (mscWin m wi).blocks.length <;>
    by_cases hw : wi + 1 = m.winList.length <;>
    simp only [if_pos, if_neg, hb, hw, if_true, if_false]

lemma relink_addr (m : Msc) (wi bi : Nat) (hwi : wi < m.winList.length)
    (hbi : bi < (mscWin m wi).blocks.length) :
    (mscBlockAt (msc_buffer_relink m) wi bi).addr = (mscBlockAt m wi bi).addr := by
  rw [relink_blockAt m wi bi hwi hbi]

lemma relink_winBlock0_addr (m : Msc) (wi : Nat) (hwi : wi < m.winList.length) :
    (winBlock0 (mscWin (msc_buffer_relink m) wi)).addr = (winBlock0 (mscWin m wi)).addr := by
  rw [relink_mscWin m wi hwi]
  unfold relinkWindow winBlock0
  cases hblk : (mscWin m wi).blocks with
  | nil => simp [hblk]
  | cons b bs =>
    simp only [hblk, List.length_cons, List.range_succ_eq_map, List.map_cons, List.headD_cons]
    rfl

lemma relink_winList_length (m : Msc) :
    (msc_buffer_relink m).winList.length = m.winList.length := by
  simp [msc_buffer_relink]

/-- C4: after msc_buffer_relink, every block's next-block pointer holds the
page frame number of the following block of its window (the first block when
it is the last, which also carries the last-block tag), its next-window
pointer holds the page frame number of the first block of the following
window (the first window when its window is the last, whose blocks carry the
last-window tag); resolving those page frame numbers back to indices (under
distinct page frame numbers) steps blocks to (bi+1) mod n and windows to
(wi+1) mod W, and the successor orbits visit every block of the window and
every window exactly once. -/
theorem C4_relink_ring (m : Msc) (wi bi : Nat)
    (hwi : wi < m.winList.length)
    (hbi : bi < (mscWin m wi).blocks.length)
    (hinjB : ∀ b1, b1 < (mscWin m wi).blocks.length →
      ∀ b2, b2 < (mscWin m wi).blocks.length →
      (mscBlockAt m wi b1).addr >>> PAGE_SHIFT = (mscBlockAt m wi b2).addr >>> PAGE_SHIFT →
      b1 = b2)
    (hinjW : ∀ w1, w1 < m.winList.length → ∀ w2, w2 < m.winList.length →
      (winBlock0 (mscWin m w1)).addr >>> PAGE_SHIFT
        = (winBlock0 (mscWin m w2)).addr >>> PAGE_SHIFT → w1 = w2) :
    (mscBlockAt (msc_buffer_relink m) wi bi).bdesc.next_blk
        = (mscBlockAt m wi ((bi + 1) % (mscWin m wi).blocks.length)).addr >>> PAGE_SHIFT
    ∧ (mscBlockAt (msc_buffer_relink m) wi bi).bdesc.next_win
        = (winBlock0 (mscWin m ((wi + 1) % m.winList.length))).addr >>> PAGE_SHIFT
    ∧ ((mscBlockAt (msc_buffer_relink m) wi bi).bdesc.sw_tag &&& MSC_SW_TAG_LASTBLK ≠ 0
        ↔ bi + 1 = (mscWin m wi).blocks.length)
    ∧ ((mscBlockAt (msc_buffer_relink m) wi bi).bdesc.sw_tag &&& MSC_SW_TAG_LASTWIN ≠ 0
        ↔ wi + 1 = m.winList.length)
    ∧ nextBlkIdx (msc_buffer_relink m) wi bi = some ((bi + 1) % (mscWin m wi).blocks.length)
    ∧ nextWinIdx (msc_buffer_relink m) wi bi = some ((wi + 1) % m.winList.length)
    ∧ ((List.range (mscWin m wi).blocks.length).map
        (fun k => (bi + k) % (mscWin m wi).blocks.length)).Nodup
    ∧ (∀ j, j < (mscWin m wi).blocks.length →
        j ∈ (List.range (mscWin m wi).blocks.length).map
          (fun k => (bi + k) % (mscWin m wi).blocks.length))
    ∧ ((List.range m.winList.length).map (fun k => (wi + k) % m.winList.length)).Nodup
    ∧ (∀ j, j < m.winList.length →
        j ∈ (List.range m.winList.length).map (fun k => (wi + k) % m.winList.length)) := by
  have hB := relink_blockAt m wi bi hwi hbi
  have hbmlt : (bi + 1) % (mscWin m wi).blocks.length < (mscWin m wi).blocks.length :=
    Nat.mod_lt _ (by omega)
  have hwmlt : (wi + 1) % m.winList.length < m.winList.length := Nat.mod_lt _ (by omega)
  refine ⟨by rw [hB], by rw [hB], ?_, ?_, ?_, ?_, ?_, ?_, ?_, ?_⟩
  · rw [hB]
    unfold MSC_SW_TAG_LASTBLK MSC_SW_TAG_LASTWIN
    by_cases hb : bi + 1 = (mscWin m wi).blocks.length <;>
      by_cases hw : wi + 1 = m.winList.length <;>
      simp [hb, hw]
  · rw [hB]
    unfold MSC_SW_TAG_LASTBLK MSC_SW_TAG_LASTWIN
    by_cases hb : bi + 1 = (mscWin m wi).blocks.length <;>
      by_cases hw : wi + 1 = m.winList.length <;>
      simp [hb, hw]
  · unfold nextBlkIdx
    apply findIdx?_eq_of_unique
    · rw [relink_length m wi hwi]
      exact hbmlt
    · show ((mscBlockAt (msc_buffer_relink m) wi
          ((bi + 1) % (mscWin m wi).blocks.length)).addr >>> PAGE_SHIFT
        == (mscBlockAt (msc_buffer_relink m) wi bi).bdesc.next_blk) = true
      rw [relink_addr m wi _ hwi hbmlt, hB]
      exact beq_self_eq_true _
    · intro j hj hpj
      rw [relink_length m wi hwi] at hj
      have hpj2 : (mscBlockAt (msc_buffer_relink m) wi j).addr >>> PAGE_SHIFT
          = (mscBlockAt (msc_buffer_relink m) wi bi).bdesc.next_blk := by
        simpa [mscBlockAt, List.getD] using hpj
      rw [relink_addr m wi j hwi hj, hB] at hpj2
      exact hinjB j hj _ hbmlt hpj2
  · unfold nextWinIdx
    apply findIdx?_eq_of_unique
    · rw [relink_winList_length m]
      exact hwmlt
    · show ((winBlock0 (mscWin (msc_buffer_relink m) ((wi + 1) % m.winList.length))).addr
          >>> PAGE_SHIFT
        == (mscBlockAt (msc_buffer_relink m) wi bi).bdesc.next_win) = true
      rw [relink_winBlock0_addr m _ hwmlt, hB]
      exact beq_self_eq_true _
    · intro j hj hpj
      rw [relink_winList_length m] at hj
      have hpj2 : (winBlock0 (mscWin (msc_buffer_relink m) j)).addr >>> PAGE_SHIFT
          = (mscBlockAt (msc_buffer_relink m) wi bi).bdesc.next_win := by
        simpa [mscWin, List.getD] using hpj
      rw [relink_winBlock0_addr m j hj, hB] at hpj2
      exact hinjW j hj _ hwmlt hpj2
  · exact List.Nodup.map_on
      (fun x hx y hy hf =>
        rot_mod_inj bi _ x y (List.mem_range.mp hx) (List.mem_range.mp hy) hf)
      (List.nodup_range _)
  · intro j hj
    obtain ⟨k, hk, hkj⟩ := rot_mod_surj bi _ j (by omega) hj
    exact List.mem_map.mpr ⟨k, List.mem_range.mpr hk, hkj⟩
  · exact List.Nodup.map_on
      (fun x hx y hy hf =>
        rot_mod_inj wi _ x y (List.mem_range.mp hx) (List.mem_range.mp hy) hf)
      (List.nodup_range _)
  · intro j hj
    obtain ⟨k, hk, hkj⟩ := rot_mod_surj wi _ j (by omega) hj
    exact List.mem_map.mpr ⟨k, List.mem_range.mpr hk, hkj⟩

/-- A concrete two-window buffer with distinct block page frame numbers,
used to exercise the relink invariant. -/
def mscC4 : Msc :=
  { winList :=
      [ { pgoff := 0, blocks :=
            [ { addr := 0x1000, bdesc := default },
              { addr := 0x2000, bdesc := default },
              { addr := 0x3000, bdesc := default } ] },
        { pgoff := 3, blocks :=
            [ { addr := 0x4000, bdesc := default },
              { addr := 0x5000, bdesc := default } ] } ],
    nrPages := 5, singleSz := 0, singleWrap := false, baseAllocated := true,
    nwsa := 0, userCount := 0, nIters := 0, enabled := false, wrap := false,
    mode := MSC_MODE_MULTI }

theorem C4_relink_ring_witness :
    nextBlkIdx (msc_buffer_relink mscC4) 0 1 = some 2
    ∧ nextWinIdx (msc_buffer_relink mscC4) 0 1 = some 1
    ∧ (mscBlockAt (msc_buffer_relink mscC4) 0 1).bdesc.next_blk = 0x3000 >>> PAGE_SHIFT := by
  have h := C4_relink_ring mscC4 0 1 (by decide) (by decide) (by decide) (by decide)
  exact ⟨h.2.2.2.2.1, h.2.2.2.2.2.1, h.1⟩

/-- Modelled from the spec and kernel allocation primitives: an oracle
deciding the outcome of the memory allocators (kzalloc of a window keyed by
the current window count, dma_alloc_coherent per block, alloc_pages for the
contiguous buffer) and the dma address returned for each block. -/
structure AllocOracle where
  winOk : Nat → Bool
  blkOk : Nat → Nat → Bool
  addr : Nat → Nat → Nat
  contigOk : Bool

/-- Total number of pages held by a window list. -/
def winSum (l : List MscWindow) : Nat :=
  (l.map (fun w => w.blocks.length)).sum

/-- msc_buffer_win_alloc: allocate one window of nr_blocks pages. A zero
count is a successful no-op; a failed window or block allocation frees
everything allocated so far and returns -ENOMEM leaving the buffer
untouched; on success the window is appended with pgoff following the
previous window, the base is recorded on the first window, and the page
count grows by nr_blocks. -/
def msc_buffer_win_alloc (o : AllocOracle) (m : Msc) (nr_blocks : Nat) : Msc × Int :=
  if nr_blocks = 0 then (m, 0)
  else if ¬ o.winOk m.winList.length then (m, ENOMEM)
  else if ¬ (List.range nr_blocks).all (fun i => o.blkOk m.winList.length i) then (m, ENOMEM)
  else
    let pgoff := match m.winList.getLast? with
      | none => 0
      | some prev => prev.pgoff + prev.blocks.length
    let win : MscWindow :=
      { pgoff := pgoff,
        blocks := (List.range nr_blocks).map
          (fun i => { addr := o.addr m.winList.length i, bdesc := default }) }
    ({ m with winList := m.winList ++ [win],
              baseAllocated := if m.winList.isEmpty then true else m.baseAllocated,
              nrPages := m.nrPages + nr_blocks }, 0)

/-- msc_buffer_multi_free via repeated msc_buffer_win_free on the head
window: the page count drops by the window size, the window leaves the
list, and the base is cleared when the list becomes empty. -/
def multiFreeGo : Nat → Msc → Msc
  | 0, m => m
  | fuel + 1, m =>
    match m.winList with
    | [] => m
    | w :: rest =>
      multiFreeGo fuel
        { m with winList := rest,
                 nrPages := m.nrPages - w.blocks.length,
                 baseAllocated := if rest.isEmpty then false else m.baseAllocated }

/-- msc_buffer_multi_free: free every window of the list. -/
def msc_buffer_multi_free (m : Msc) : Msc :=
  multiFreeGo m.winList.length m

/-- The loop of msc_buffer_multi_alloc: allocate one window per requested
size; on the first failure free all windows and return the error; once all
windows are allocated, relink the ring. -/
def multiAllocGo (o : AllocOracle) : Msc → List Nat → Msc × Int
  | m, [] => (msc_buffer_relink m, 0)
  | m, r :: rest =>
    let p := msc_buffer_win_alloc o m r
    if p.2 ≠ 0 then (msc_buffer_multi_free p.1, p.2)
    else multiAllocGo o p.1 rest

/-- msc_buffer_multi_alloc. -/
def msc_buffer_multi_alloc (o : AllocOracle) (m : Msc) (reqs : List Nat) : Msc × Int :=
  multiAllocGo o m reqs

/-- msc_buffer_contig_alloc: zero size succeeds without allocating;
otherwise allocate the contiguous area, record the page count and base. -/
def msc_buffer_contig_alloc (o : AllocOracle) (m : Msc) (size : Nat) : Msc × Int :=
  if size = 0 then (m, 0)
  else if ¬ o.contigOk then (m, ENOMEM)
  else ({ m with nrPages := size >>> PAGE_SHIFT, baseAllocated := true }, 0)

/-- msc_buffer_contig_free: release the pages and zero the page count. -/
def msc_buffer_contig_free (m : Msc) : Msc :=
  { m with nrPages := 0 }

/-- msc_buffer_free: dispatch on the mode. -/
def msc_buffer_free (m : Msc) : Msc :=
  if m.mode = MSC_MODE_SINGLE then msc_buffer_contig_free m
  else if m.mode = MSC_MODE_MULTI then msc_buffer_multi_free m
  else m

/-- msc_buffer_alloc: refuse with -EBUSY unless the usage counter is -1;
dispatch on the mode (single mode requires exactly one size entry);
on success move the counter from -1 to 0. -/
def allocDispatch (o : AllocOracle) (m : Msc) (reqs : List Nat) : Msc × Int :=
  if m.mode = MSC_MODE_SINGLE then
    if reqs.length ≠ 1 then (m, EINVAL)
    else msc_buffer_contig_alloc o m (reqs.headD 0 <<< PAGE_SHIFT)
  else if m.mode = MSC_MODE_MULTI then msc_buffer_multi_alloc o m reqs
  else (m, ENOTSUPP)

def msc_buffer_alloc (o : AllocOracle) (m : Msc) (reqs : List Nat) : Msc × Int :=
  if m.userCount ≠ -1 then (m, EBUSY)
  else
    let p := allocDispatch o m reqs
    if p.2 = 0 then
      if p.1.userCount = -1 then ({ p.1 with userCount := 0 }, 0)
      else (p.1, EINVAL)
    else p

/-- msc_buffer_unlocked_free_unless_used: positive usage counter refuses
with -EBUSY; a zero counter frees the buffer and parks the counter at -1;
a negative counter is a successful no-op. -/
def msc_buffer_unlocked_free_unless_used (m : Msc) : Msc × Int :=
  if 0 < m.userCount then (m, EBUSY)
  else if m.userCount = 0 then ({ msc_buffer_free m with userCount := -1 }, 0)
  else (m, 0)

lemma multiFreeGo_spec : ∀ (fuel : Nat) (m : Msc), m.winList.length ≤ fuel →
    (multiFreeGo fuel m).winList = []
    ∧ (multiFreeGo fuel m).nrPages = m.nrPages - winSum m.winList
    ∧ (multiFreeGo fuel m).baseAllocated
        = (if m.winList.isEmpty then m.baseAllocated else false)
    ∧ (multiFreeGo fuel m).userCount = m.userCount
    ∧ (multiFreeGo fuel m).mode = m.mode
    ∧ (multiFreeGo fuel m).singleSz = m.singleSz
    ∧ (multiFreeGo fuel m).enabled = m.enabled := by
  intro fuel
  induction fuel with
  | zero =>
    intro m hm
    have h0 : m.winList = [] := List.eq_nil_of_length_eq_zero (by omega)
    refine ⟨h0, ?_, ?_, rfl, rfl, rfl, rfl⟩
    · rw [h0]; rfl
    · rw [h0]; rfl
  | succ fuel ih =>
    intro m hm
    cases hl : m.winList with
    | nil =>
      rw [multiFreeGo, hl]
      refine ⟨hl, by simp [winSum], by simp, rfl, rfl, rfl, rfl⟩
    | cons w rest =>
      rw [multiFreeGo, hl]
      have hrec := ih { m with winList := rest,
                               nrPages := m.nrPages - w.blocks.length,
                               baseAllocated :=
                                 if rest.isEmpty then false else m.baseAllocated }
        (by simp only [hl, List.length_cons] at hm; simpa using Nat.le_of_succ_le_succ hm)
      refine ⟨hrec.1, ?_, ?_, hrec.2.2.2.1, hrec.2.2.2.2.1, hrec.2.2.2.2.2.1,
        hrec.2.2.2.2.2.2⟩
      · rw [hrec.2.1]
        show m.nrPages - w.blocks.length - winSum rest = m.nrPages - winSum (w :: rest)
        have hws : winSum (w :: rest) = w.blocks.length + winSum rest := by
          simp [winSum]
        rw [Nat.sub_sub, ← hws]
      · rw [hrec.2.2.1]
        show (if rest.isEmpty then (if rest.isEmpty then false else m.baseAllocated)
              else false) = _
        cases hre : rest.isEmpty <;> simp [hre]

lemma win_alloc_fail (o : AllocOracle) (m : Msc) (n : Nat)
    (h : (msc_buffer_win_alloc o m n).2 ≠ 0) :
    msc_buffer_win_alloc o m n = (m, ENOMEM) := by
  unfold msc_buffer_win_alloc at h ⊢
  by_cases h0 : n = 0
  · rw [if_pos h0] at h; exact absurd rfl h
  · rw [if_neg h0] at h ⊢
    by_cases h1 : ¬ o.winOk m.winList.length
    · rw [if_pos h1]
    · rw [if_neg h1] at h ⊢
      by_cases h2 : ¬ (List.range n).all (fun i => o.blkOk m.winList.length i)
      · rw [if_pos h2]
      · rw [if_neg h2] at h
        exact absurd rfl h

lemma win_alloc_success (o : AllocOracle) (m : Msc) (n : Nat)
    (h : (msc_buffer_win_alloc o m n).2 = 0) :
    (msc_buffer_win_alloc o m n).1.nrPages = m.nrPages + n
    ∧ winSum (msc_buffer_win_alloc o m n).1.winList = winSum m.winList + n
    ∧ (msc_buffer_win_alloc o m n).1.userCount = m.userCount
    ∧ (msc_buffer_win_alloc o m n).1.mode = m.mode
    ∧ ((msc_buffer_win_alloc o m n).1 = m ∨ (msc_buffer_win_alloc o m n).1.winList ≠ []) := by
  unfold msc_buffer_win_alloc at h ⊢
  by_cases h0 : n = 0
  · subst h0
    rw [if_pos rfl] at h ⊢
    exact ⟨rfl, rfl, rfl, rfl, Or.inl rfl⟩
  · rw [if_neg h0] at h ⊢
    by_cases h1 : ¬ o.winOk m.winList.length
    · rw [if_pos h1] at h; exact absurd h (show ENOMEM ≠ 0 by decide)
    · rw [if_neg h1] at h ⊢
      by_cases h2 : ¬ (List.range n).all (fun i => o.blkOk m.winList.length i)
      · rw [if_pos h2] at h; exact absurd h (show ENOMEM ≠ 0 by decide)
      · rw [if_neg h2] at h ⊢
        refine ⟨rfl, ?_, rfl, rfl, Or.inr (by simp)⟩
        simp [winSum]

lemma multiAllocGo_userCount (o : AllocOracle) :
    ∀ (reqs : List Nat) (m : Msc), (multiAllocGo o m reqs).1.userCount = m.userCount := by
  intro reqs
  induction reqs with
  | nil => intro m; rfl
  | cons r rest ih =>
    intro m
    rw [multiAllocGo]
    by_cases hp : (msc_buffer_win_alloc o m r).2 = 0
    · rw [if_neg (not_not_intro hp), ih]
      exact (win_alloc_success o m r hp).2.2.1
    · rw [if_pos hp, win_alloc_fail o m r hp]
      show (multiFreeGo m.winList.length m).userCount = m.userCount
      exact (multiFreeGo_spec _ m (le_refl _)).2.2.2.1

lemma multiAllocGo_rollback (o : AllocOracle) :
    ∀ (reqs : List Nat) (m : Msc) (P0 : Nat),
      m.nrPages = P0 + winSum m.winList →
      (m.winList = [] → m.baseAllocated = false) →
      (multiAllocGo o m reqs).2 ≠ 0 →
      (multiAllocGo o m reqs).2 = ENOMEM
      ∧ (multiAllocGo o m reqs).1.winList = []
      ∧ (multiAllocGo o m reqs).1.nrPages = P0
      ∧ (multiAllocGo o m reqs).1.baseAllocated = false
      ∧ (multiAllocGo o m reqs).1.userCount = m.userCount
      ∧ (multiAllocGo o m reqs).1.mode = m.mode := by
  intro reqs
  induction reqs with
  | nil =>
    intro m P0 hnp hba hfail
    exact absurd rfl hfail
  | cons r rest ih =>
    intro m P0 hnp hba hfail
    by_cases hp : (msc_buffer_win_alloc o m r).2 = 0
    · have hred : multiAllocGo o m (r :: rest)
          = multiAllocGo o (msc_buffer_win_alloc o m r).1 rest := by
        rw [multiAllocGo]
        rw [if_neg (not_not_intro hp)]
      obtain ⟨ha1, ha2, ha3, ha4, ha5⟩ := win_alloc_success o m r hp
      rw [hred] at hfail ⊢
      have ihh := ih (msc_buffer_win_alloc o m r).1 P0
        (by rw [ha1, ha2, hnp]; omega)
        (by
          intro hemp
          cases ha5 with
          | inl he => rw [he]; exact hba (by rw [← he]; exact hemp)
          | inr hne => exact absurd hemp hne)
        hfail
      exact ⟨ihh.1, ihh.2.1, ihh.2.2.1, ihh.2.2.2.1,
        by rw [ihh.2.2.2.2.1, ha3], by rw [ihh.2.2.2.2.2, ha4]⟩
    · have hred : multiAllocGo o m (r :: rest) = (msc_buffer_multi_free m, ENOMEM) := by
        rw [multiAllocGo]
        rw [if_pos hp, win_alloc_fail o m r hp]
      rw [hred]
      have hmf := multiFreeGo_spec m.winList.length m (le_refl _)
      refine ⟨rfl, hmf.1, ?_, ?_, hmf.2.2.2.1, hmf.2.2.2.2.1⟩
      · show (multiFreeGo m.winList.length m).nrPages = P0
        rw [hmf.2.1]
        omega
      · show (multiFreeGo m.winList.length m).baseAllocated = false
        rw [hmf.2.2.1]
        cases hemp : m.winList with
        | nil => simp [hba hemp]
        | cons a b => simp

lemma dispatch_userCount (o : AllocOracle) (m : Msc) (reqs : List Nat) :
    (allocDispatch o m reqs).1.userCount = m.userCount := by
  unfold allocDispatch msc_buffer_contig_alloc msc_buffer_multi_alloc
  repeat' split
  all_goals first
    | rfl
    | exact multiAllocGo_userCount o reqs m

/-- C5: in multi mode with no buffer allocated, if any window allocation
fails, the call returns -ENOMEM, every window allocated by the call has been
freed, the page count is back at its prior value, the base is not recorded
and the usage counter is still -1. -/
theorem C5_multi_alloc_rollback (o : AllocOracle) (m : Msc) (reqs : List Nat)
    (hmode : m.mode = MSC_MODE_MULTI) (huser : m.userCount = -1)
    (hwin : m.winList = []) (hba : m.baseAllocated = false)
    (hfail : (msc_buffer_alloc o m reqs).2 ≠ 0) :
    (msc_buffer_alloc o m reqs).2 = ENOMEM
    ∧ (msc_buffer_alloc o m reqs).1.winList = []
    ∧ (msc_buffer_alloc o m reqs).1.nrPages = m.nrPages
    ∧ (msc_buffer_alloc o m reqs).1.baseAllocated = false
    ∧ (msc_buffer_alloc o m reqs).1.userCount = -1 := by
  have hm0 : ¬ m.mode = MSC_MODE_SINGLE := by
    rw [hmode]; decide
  have hdisp : allocDispatch o m reqs = multiAllocGo o m reqs := by
    unfold allocDispatch
    rw [if_neg hm0, if_pos hmode]
    rfl
  unfold msc_buffer_alloc at hfail ⊢
  rw [if_neg (not_not_intro huser), hdisp] at hfail ⊢
  by_cases hp : (multiAllocGo o m reqs).2 = 0
  · rw [if_pos hp] at hfail
    have hpu : (multiAllocGo o m reqs).1.userCount = -1 := by
      rw [multiAllocGo_userCount o reqs m, huser]
    rw [if_pos hpu] at hfail
    exact absurd rfl hfail
  · rw [if_neg hp] at hfail ⊢
    have hroll := multiAllocGo_rollback o reqs m m.nrPages
      (by rw [hwin]; simp [winSum]) (fun _ => hba) hfail
    exact ⟨hroll.1, hroll.2.1, hroll.2.2.1, hroll.2.2.2.1,
      by rw [hroll.2.2.2.2.1, huser]⟩

/-- An allocation oracle whose block allocator always fails. -/
def oC5 : AllocOracle :=
  { winOk := fun _ => true, blkOk := fun _ _ => false,
    addr := fun _ _ => 0, contigOk := true }

/-- An unallocated multi-mode buffer. -/
def mC5 : Msc :=
  { winList := [], nrPages := 0, singleSz := 0, singleWrap := false,
    baseAllocated := false, nwsa := 0, userCount := -1, nIters := 0,
    enabled := false, wrap := false, mode := MSC_MODE_MULTI }

theorem C5_multi_alloc_rollback_witness :
    (msc_buffer_alloc oC5 mC5 [2]).2 = ENOMEM
    ∧ (msc_buffer_alloc oC5 mC5 [2]).1.winList = []
    ∧ (msc_buffer_alloc oC5 mC5 [2]).1.nrPages = 0
    ∧ (msc_buffer_alloc oC5 mC5 [2]).1.userCount = -1 := by
  have h := C5_multi_alloc_rollback oC5 mC5 [2] rfl rfl rfl rfl (by decide)
  exact ⟨h.1, h.2.1, h.2.2.1, h.2.2.2.2⟩

/-- C6: the usage-counter regime of allocate and free. Allocate refuses with
-EBUSY whenever the counter is non-negative; a successful allocate moves the
counter from -1 to 0. Free refuses with -EBUSY and changes nothing when the
counter is positive; at zero it succeeds, releases the buffer (single: page
count drops to zero; multi: the window list empties) and parks the counter at
-1; when the counter is already negative it succeeds without doing anything. -/
theorem C6_alloc_free_usage (o : AllocOracle) (m : Msc) (reqs : List Nat) :
    (0 ≤ m.userCount → msc_buffer_alloc o m reqs = (m, EBUSY))
    ∧ ((msc_buffer_alloc o m reqs).2 = 0 →
        m.userCount = -1 ∧ (msc_buffer_alloc o m reqs).1.userCount = 0)
    ∧ (0 < m.userCount → msc_buffer_unlocked_free_unless_used m = (m, EBUSY))
    ∧ (m.userCount = 0 →
        (msc_buffer_unlocked_free_unless_used m).2 = 0
        ∧ (msc_buffer_unlocked_free_unless_used m).1.userCount = -1
        ∧ (m.mode = MSC_MODE_SINGLE →
            (msc_buffer_unlocked_free_unless_used m).1.nrPages = 0)
        ∧ (m.mode = MSC_MODE_MULTI →
            (msc_buffer_unlocked_free_unless_used m).1.winList = []))
    ∧ (m.userCount < 0 → msc_buffer_unlocked_free_unless_used m = (m, 0)) := by
  refine ⟨?_, ?_, ?_, ?_, ?_⟩
  · intro h1
    unfold msc_buffer_alloc
    rw [if_pos (by omega)]
  · intro h2
    unfold msc_buffer_alloc at h2 ⊢
    by_cases hu : m.userCount = -1
    · rw [if_neg (not_not_intro hu)] at h2 ⊢
      by_cases hp : (allocDispatch o m reqs).2 = 0
      · rw [if_pos hp] at h2 ⊢
        have hpu : (allocDispatch o m reqs).1.userCount = -1 := by
          rw [dispatch_userCount o m reqs, hu]
        rw [if_pos hpu]
        exact ⟨hu, rfl⟩
      · rw [if_neg hp] at h2
        exact absurd h2 hp
    · rw [if_pos hu] at h2
      exact absurd h2 (show EBUSY ≠ 0 by decide)
  · intro h3
    unfold msc_buffer_unlocked_free_unless_used
    rw [if_pos h3]
  · intro h4
    unfold msc_buffer_unlocked_free_unless_used
    rw [if_neg (by omega), if_pos h4]
    refine ⟨rfl, rfl, ?_, ?_⟩
    · intro hs
      show (msc_buffer_free m).nrPages = 0
      unfold msc_buffer_free
      rw [if_pos hs]
      rfl
    · intro hmu
      show (msc_buffer_free m).winList = []
      unfold msc_buffer_free
      rw [if_neg (by rw [hmu]; decide), if_pos hmu]
      exact (multiFreeGo_spec m.winList.length m (le_refl _)).1
  · intro h5
    unfold msc_buffer_unlocked_free_unless_used
    rw [if_neg (by omega), if_neg (by omega)]

theorem C6_alloc_free_usage_witness :
    (msc_buffer_unlocked_free_unless_used mscC4).2 = 0
    ∧ (msc_buffer_unlocked_free_unless_used mscC4).1.userCount = -1
    ∧ (msc_buffer_unlocked_free_unless_used mscC4).1.winList = []
    ∧ msc_buffer_alloc oC5 mscC4 [1] = (mscC4, EBUSY) := by
  have h := C6_alloc_free_usage oC5 mscC4 [1]
  have h4 := h.2.2.2.1 (by decide)
  exact ⟨h4.1, h4.2.1, h4.2.2.2 rfl, h.1 (by decide)⟩

/-- msc_single_to_user: copy a single-mode buffer to the user in
chronological order. All size_t arithmetic wraps at 2^64 as in C; the copy
destinations always accept (copy_to_user failure is not modelled), and each
issued copy is logged as (source offset, length). Returns the log and the
number of bytes copied (len - rem). -/
def msc_single_to_user (in_pages in_sz : Nat) (wrapped : Bool) (off len : Nat) :
    List (Nat × Nat) × Nat :=
  let size := in_pages <<< PAGE_SHIFT
  if wrapped then
    let start1 := (off + in_sz) % USZ
    let s :=
      if start1 < size then
        let tocopy := min len (size - start1)
        (([(start1, tocopy)] : List (Nat × Nat)), len - tocopy, (start1 + tocopy) % USZ)
      else (([] : List (Nat × Nat)), len, start1)
    let start3 := s.2.2 &&& usub size 1
    if s.2.1 ≠ 0 then
      let tocopy := min s.2.1 (usub in_sz start3)
      (s.1 ++ [(start3, tocopy)], len - (s.2.1 - tocopy))
    else (s.1, len - s.2.1)
  else
    if len ≠ 0 then
      let tocopy := min len (usub in_sz off)
      ([(off, tocopy)], len - (len - tocopy))
    else ([], 0)

/-- intel_th_msc_read: a sequential read of len bytes at file position ppos.
Returns the single-mode copy log, the return value, the new file position
and the new iterator. The usage counter gate models
atomic_inc_unless_negative followed by the balancing decrement; in multi
mode the user sink is modelled as accepting everything. -/
def intel_th_msc_read (m : Msc) (regNwsa : Nat) (it : MscIter) (len ppos : Nat) :
    List (Nat × Nat) × Int × Nat × MscIter :=
  if m.userCount < 0 then ([], 0, ppos, it)
  else
    let off := ppos
    let size := if m.mode = MSC_MODE_SINGLE ∧ ¬ m.singleWrap then m.singleSz
                else m.nrPages <<< PAGE_SHIFT
    if size = 0 then ([], 0, ppos, it)
    else if off ≥ size then ([], 0, ppos, it)
    else
      let len2 := if off + len ≥ size then size - off else len
      if m.mode = MSC_MODE_SINGLE then
        let r := msc_single_to_user m.nrPages m.singleSz m.singleWrap off len2
        (r.1, (r.2 : Int), if 0 < r.2 then ppos + r.2 else ppos, it)
      else if m.mode = MSC_MODE_MULTI then
        let r := msc_buffer_iterate m regNwsa it len2 (fun _ _ => 0)
        ([], (r.2.1 : Int), r.2.2.offset, r.2.2)
      else ([], ENOTSUPP, ppos, it)

lemma pow_and_pred (n : Nat) : 2 ^ n &&& (2 ^ n - 1) = 0 := by
  apply Nat.eq_of_testBit_eq
  intro i
  rw [Nat.testBit_and, Nat.testBit_two_pow, Nat.testBit_two_pow_sub_one]
  simp only [Nat.zero_testBit]
  by_cases h : n = i <;> simp [h]

lemma single_to_user_wrapped_pow (p in_sz k : Nat)
    (hpow : p = 2 ^ k) (hsz : 0 < in_sz) (hlt : in_sz < p <<< PAGE_SHIFT)
    (hb : p <<< PAGE_SHIFT < USZ) :
    msc_single_to_user p in_sz true 0 (p <<< PAGE_SHIFT)
      = ([(in_sz, p <<< PAGE_SHIFT - in_sz), (0, in_sz)], p <<< PAGE_SHIFT) := by
  have h1 : (0 + in_sz) % USZ = in_sz := by
    rw [Nat.zero_add]
    exact Nat.mod_eq_of_lt (by omega)
  have h2 : min (p <<< PAGE_SHIFT) (p <<< PAGE_SHIFT - in_sz) = p <<< PAGE_SHIFT - in_sz :=
    Nat.min_eq_right (by omega)
  have h4 : (in_sz + (p <<< PAGE_SHIFT - in_sz)) % USZ = p <<< PAGE_SHIFT := by
    have : in_sz + (p <<< PAGE_SHIFT - in_sz) = p <<< PAGE_SHIFT := by omega
    rw [this]
    exact Nat.mod_eq_of_lt hb
  have hmask : p <<< PAGE_SHIFT &&& usub (p <<< PAGE_SHIFT) 1 = 0 := by
    rw [usub_eq_sub _ _ (by omega) hb]
    have hsz2 : p <<< PAGE_SHIFT = 2 ^ (k + PAGE_SHIFT) := by
      rw [hpow, Nat.shiftLeft_eq, ← pow_add]
    rw [hsz2]
    exact pow_and_pred _
  have h5 : usub in_sz 0 = in_sz := by
    rw [usub_eq_sub _ _ (by omega) (by omega)]
    omega
  simp only [msc_single_to_user]
  rw [if_pos trivial, h1, if_pos hlt]
  dsimp only
  rw [h2, h4, hmask]
  rw [if_pos (show p <<< PAGE_SHIFT - (p <<< PAGE_SHIFT - in_sz) ≠ 0 by omega)]
  rw [h5]
  have h6 : min (p <<< PAGE_SHIFT - (p <<< PAGE_SHIFT - in_sz)) in_sz = in_sz :=
    Nat.min_eq_right (by omega)
  rw [h6]
  have h7 : p <<< PAGE_SHIFT - (p <<< PAGE_SHIFT - in_sz) = in_sz := by omega
  rw [h7]
  simp

lemma single_to_user_nonwrapped (p in_sz off len : Nat)
    (hoff : off ≤ in_sz) (hszb : in_sz < USZ) (hlen : len ≠ 0) :
    msc_single_to_user p in_sz false off len
      = ([(off, min len (in_sz - off))], min len (in_sz - off)) := by
  simp only [msc_single_to_user]
  rw [if_neg (by simp), if_pos hlen, usub_eq_sub _ _ hoff hszb]
  have : len - (len - min len (in_sz - off)) = min len (in_sz - off) := by
    have := Nat.min_le_left len (in_sz - off)
    omega
  rw [this]

/-- C7 (amended): for a single-mode buffer whose page count is a power of
two, a sequential read reconstructs chronological order: a wrapped
full-region read from position 0 emits the tail from the saved write offset
to the end of the region, then the head from offset 0 up to the write
offset; without wrap, a read at a position below the write offset returns
exactly the bytes up to the write offset and advances the position there,
and a read at or past the write offset returns 0 and leaves the position
unchanged. -/
theorem C7_single_read_chronological (m : Msc) (regNwsa : Nat) (it : MscIter) (k : Nat)
    (hmode : m.mode = MSC_MODE_SINGLE)
    (huser : 0 ≤ m.userCount)
    (hpow : m.nrPages = 2 ^ k)
    (hb : m.nrPages <<< PAGE_SHIFT < USZ)
    (hbsz : m.singleSz < USZ)
    (hsz : 0 < m.singleSz) :
    (m.singleWrap = true → m.singleSz < m.nrPages <<< PAGE_SHIFT →
      intel_th_msc_read m regNwsa it (m.nrPages <<< PAGE_SHIFT) 0
        = ([(m.singleSz, m.nrPages <<< PAGE_SHIFT - m.singleSz), (0, m.singleSz)],
           ((m.nrPages <<< PAGE_SHIFT : Nat) : Int), m.nrPages <<< PAGE_SHIFT, it))
    ∧ (m.singleWrap = false → ∀ off len, off < m.singleSz → m.singleSz ≤ off + len →
        intel_th_msc_read m regNwsa it len off
          = ([(off, m.singleSz - off)], ((m.singleSz - off : Nat) : Int), m.singleSz, it))
    ∧ (m.singleWrap = false → ∀ off len, m.singleSz ≤ off →
        intel_th_msc_read m regNwsa it len off = ([], 0, off, it)) := by
  refine ⟨?_, ?_, ?_⟩
  · intro hw hlt
    simp only [intel_th_msc_read]
    rw [if_neg (by omega)]
    rw [if_neg (show ¬ (m.mode = MSC_MODE_SINGLE ∧ ¬ m.singleWrap = true) by simp [hw])]
    rw [if_neg (show ¬ m.nrPages <<< PAGE_SHIFT = 0 by omega)]
    rw [if_neg (show ¬ 0 ≥ m.nrPages <<< PAGE_SHIFT by omega)]
    rw [if_pos (show 0 + m.nrPages <<< PAGE_SHIFT ≥ m.nrPages <<< PAGE_SHIFT by omega)]
    rw [if_pos hmode]
    rw [hw, Nat.sub_zero]
    rw [single_to_user_wrapped_pow m.nrPages m.singleSz k hpow hsz hlt hb]
    dsimp only
    rw [if_pos (show 0 < m.nrPages <<< PAGE_SHIFT by omega)]
    rw [Nat.zero_add]
  · intro hw off len hofflt hcov
    simp only [intel_th_msc_read]
    rw [if_neg (by omega)]
    rw [if_pos (show m.mode = MSC_MODE_SINGLE ∧ ¬ m.singleWrap = true by simp [hmode, hw])]
    rw [if_neg (show ¬ m.singleSz = 0 by omega)]
    rw [if_neg (show ¬ off ≥ m.singleSz by omega)]
    rw [if_pos (show off + len ≥ m.singleSz from hcov)]
    rw [if_pos hmode]
    rw [hw]
    rw [single_to_user_nonwrapped m.nrPages m.singleSz off (m.singleSz - off)
      (by omega) hbsz (by omega)]
    rw [Nat.min_self]
    dsimp only
    rw [if_pos (show 0 < m.singleSz - off by omega)]
    rw [show off + (m.singleSz - off) = m.singleSz by omega]
  · intro hw off len hge
    simp only [intel_th_msc_read]
    rw [if_neg (by omega)]
    rw [if_pos (show m.mode = MSC_MODE_SINGLE ∧ ¬ m.singleWrap = true by simp [hmode, hw])]
    by_cases hz : m.singleSz = 0
    · rw [if_pos hz]
    · rw [if_neg hz]
      rw [if_pos (show off ≥ m.singleSz from hge)]

/-- A single-mode wrapped buffer of three pages (not a power of two). -/
def mC7 : Msc :=
  { winList := [], nrPages := 3, singleSz := 100, singleWrap := true,
    baseAllocated := true, nwsa := 0, userCount := 0, nIters := 0,
    enabled := false, wrap := false, mode := MSC_MODE_SINGLE }

/-- C7 counterexample: with a wrapped three-page single-mode buffer and
write offset 100, a full read emits its second segment from source offset
8192 (the write position masked by size-1) instead of offset 0, so the head
bytes 0..99 are never emitted and the claimed start-of-region segment does
not appear. -/
theorem C7_counterexample_nonpow_mask :
    (intel_th_msc_read mC7 0 msc_iter_init 12288 0).1 = [(100, 12188), (8192, 100)]
    ∧ (intel_th_msc_read mC7 0 msc_iter_init 12288 0).1 ≠ [(100, 12188), (0, 100)]
    ∧ mC7.mode = MSC_MODE_SINGLE ∧ mC7.singleWrap = true
    ∧ 0 < mC7.userCount + 1 := by
  refine ⟨by decide, by decide, rfl, rfl, by decide⟩

/-- A single-mode four-page buffer with the write pointer at page-2
offset 100 (byte 8292), not wrapped. -/
def mC7w : Msc :=
  { winList := [], nrPages := 4, singleSz := 8292, singleWrap := false,
    baseAllocated := true, nwsa := 0, userCount := 0, nIters := 0,
    enabled := false, wrap := false, mode := MSC_MODE_SINGLE }

theorem C7_single_read_chronological_witness :
    intel_th_msc_read mC7w 0 msc_iter_init 999999 0
      = ([(0, 8292)], 8292, 8292, msc_iter_init)
    ∧ intel_th_msc_read mC7w 0 msc_iter_init 10 8292 = ([], 0, 8292, msc_iter_init)
    ∧ intel_th_msc_read { mC7w with singleWrap := true } 0 msc_iter_init 16384 0
      = ([(8292, 8092), (0, 8292)], 16384, 16384, msc_iter_init) := by
  have h1 := C7_single_read_chronological mC7w 0 msc_iter_init 2
    rfl (by decide) (by decide) (by decide) (by decide) (by decide)
  have h2 := C7_single_read_chronological { mC7w with singleWrap := true } 0 msc_iter_init 2
    rfl (by decide) (by decide) (by decide) (by decide) (by decide)
  refine ⟨?_, h1.2.2 rfl 8292 10 (by decide), ?_⟩
  · have := h1.2.1 rfl 0 999999 (by decide) (by decide)
    simpa using this
  · have := h2.1 rfl (by decide)
    simpa using this

/-- C10: a sequential read while no buffer is allocated (usage counter
negative, so atomic_inc_unless_negative fails) returns 0 rather than an
error, emits nothing and leaves the file position and iterator unchanged. -/
theorem C10_read_unallocated_returns_zero (m : Msc) (regNwsa : Nat) (it : MscIter)
    (len ppos : Nat) (h : m.userCount < 0) :
    intel_th_msc_read m regNwsa it len ppos = ([], 0, ppos, it) := by
  simp only [intel_th_msc_read]
  rw [if_pos h]

theorem C10_read_unallocated_returns_zero_witness :
    intel_th_msc_read mC5 0 msc_iter_init 4096 7 = ([], 0, 7, msc_iter_init) :=
  C10_read_unallocated_returns_zero mC5 0 msc_iter_init 4096 7 (by decide)

/-- msc_iter_install: opening a reader session fails with -EBUSY while
capture is enabled; otherwise a new iterator joins the list (tracked here as
a count). -/
def msc_iter_install (m : Msc) : Msc × Int :=
  if m.enabled then (m, EBUSY)
  else ({ m with nIters := m.nIters + 1 }, 0)

/-- msc_iter_remove: the iterator leaves the list. -/
def msc_iter_remove (m : Msc) : Msc :=
  { m with nIters := m.nIters - 1 }

/-- msc_buffer_clear_hw_header: zero the hardware-written part of every
block descriptor. -/
def msc_buffer_clear_hw_header (m : Msc) : Msc :=
  { m with winList := m.winList.map (fun w =>
      { w with blocks := w.blocks.map (fun b =>
          { b with bdesc := { b.bdesc with hwWrapped := false, hwLastWritten := false,
                                           valid_dw := 0 } }) }) }

/-- msc_configure: refuse modes beyond MULTI with -ENOTSUPP; in MULTI mode
clear the hardware headers; program the hardware and mark capture enabled. -/
def msc_configure (m : Msc) : Msc × Int :=
  if MSC_MODE_MULTI < m.mode then (m, ENOTSUPP)
  else
    let m2 := if m.mode = MSC_MODE_MULTI then msc_buffer_clear_hw_header m else m
    ({ m2 with enabled := true }, 0)

/-- msc_disable: in single mode latch the wrap flag and write position from
the hardware, save the next-window address, and mark capture disabled. -/
def msc_disable (m : Msc) (regWrapStat : Bool) (regMWP regNwsa : Nat) : Msc :=
  let m1 :=
    if m.mode = MSC_MODE_SINGLE then
      { m with singleWrap := regWrapStat,
               singleSz := (regMWP % U32) &&& usub (m.nrPages <<< PAGE_SHIFT) 1 }
    else m
  { m1 with nwsa := (regNwsa % U32) <<< PAGE_SHIFT, enabled := false }

/-- intel_th_msc_activate: fail with -ENODEV when no buffer is allocated
(the usage counter cannot be incremented); under the lock, configure only
if the reader list is empty, otherwise -EBUSY; on failure give the counter
back. -/
def intel_th_msc_activate (m : Msc) : Msc × Int :=
  if m.userCount < 0 then (m, ENODEV)
  else
    let m1 := { m with userCount := m.userCount + 1 }
    let p := if m1.nIters = 0 then msc_configure m1 else (m1, EBUSY)
    if p.2 ≠ 0 then ({ p.1 with userCount := p.1.userCount - 1 }, p.2)
    else (p.1, 0)

/-- intel_th_msc_deactivate: when capture is enabled, disable it and drop
the activation reference. -/
def intel_th_msc_deactivate (m : Msc) (regWrapStat : Bool) (regMWP regNwsa : Nat) : Msc :=
  if m.enabled then
    let m1 := msc_disable m regWrapStat regMWP regNwsa
    { m1 with userCount := m1.userCount - 1 }
  else m

/-- The initial state of the device after probing: no buffer (usage counter
-1), multi mode, capture disabled, no readers. -/
def mscInit : Msc :=
  { winList := [], nrPages := 0, singleSz := 0, singleWrap := false,
    baseAllocated := false, nwsa := 0, userCount := -1, nIters := 0,
    enabled := false, wrap := false, mode := MSC_MODE_MULTI }

/-- One serialized operation of the lifecycle controller: all the entry
points that run under msc::buf_mutex and change the control state. -/
inductive CtlStep : Msc → Msc → Prop where
  | install (m : Msc) : CtlStep m (msc_iter_install m).1
  | remove (m : Msc) : CtlStep m (msc_iter_remove m)
  | activate (m : Msc) : CtlStep m (intel_th_msc_activate m).1
  | deactivate (m : Msc) (ws : Bool) (mwp nwsa : Nat) :
      CtlStep m (intel_th_msc_deactivate m ws mwp nwsa)
  | alloc (m : Msc) (o : AllocOracle) (reqs : List Nat) :
      CtlStep m (msc_buffer_alloc o m reqs).1
  | free (m : Msc) : CtlStep m (msc_buffer_unlocked_free_unless_used m).1

/-- States reachable from the freshly probed device by serialized
lifecycle operations. -/
def Reachable (m : Msc) : Prop :=
  Relation.ReflTransGen CtlStep mscInit m

lemma multiFreeGo_pres : ∀ (fuel : Nat) (m : Msc),
    (multiFreeGo fuel m).nIters = m.nIters ∧ (multiFreeGo fuel m).enabled = m.enabled := by
  intro fuel
  induction fuel with
  | zero => intro m; exact ⟨rfl, rfl⟩
  | succ fuel ih =>
    intro m
    rw [multiFreeGo]
    cases hl : m.winList with
    | nil => exact ⟨rfl, rfl⟩
    | cons w rest => exact ih _

lemma win_alloc_pres (o : AllocOracle) (m : Msc) (n : Nat) :
    (msc_buffer_win_alloc o m n).1.nIters = m.nIters
    ∧ (msc_buffer_win_alloc o m n).1.enabled = m.enabled := by
  unfold msc_buffer_win_alloc
  repeat' split
  all_goals exact ⟨rfl, rfl⟩

lemma multiAllocGo_pres (o : AllocOracle) : ∀ (reqs : List Nat) (m : Msc),
    (multiAllocGo o m reqs).1.nIters = m.nIters
    ∧ (multiAllocGo o m reqs).1.enabled = m.enabled := by
  intro reqs
  induction reqs with
  | nil => intro m; exact ⟨rfl, rfl⟩
  | cons r rest ih =>
    intro m
    rw [multiAllocGo]
    by_cases hp : (msc_buffer_win_alloc o m r).2 = 0
    · rw [if_neg (not_not_intro hp)]
      obtain ⟨ih1, ih2⟩ := ih (msc_buffer_win_alloc o m r).1
      obtain ⟨w1, w2⟩ := win_alloc_pres o m r
      exact ⟨by rw [ih1, w1], by rw [ih2, w2]⟩
    · rw [if_pos hp, win_alloc_fail o m r hp]
      exact multiFreeGo_pres _ _

lemma alloc_pres (o : AllocOracle) (m : Msc) (reqs : List Nat) :
    (msc_buffer_alloc o m reqs).1.nIters = m.nIters
    ∧ (msc_buffer_alloc o m reqs).1.enabled = m.enabled := by
  have hd : (allocDispatch o m reqs).1.nIters = m.nIters
      ∧ (allocDispatch o m reqs).1.enabled = m.enabled := by
    unfold allocDispatch msc_buffer_contig_alloc msc_buffer_multi_alloc
    repeat' split
    all_goals first
      | exact ⟨rfl, rfl⟩
      | exact multiAllocGo_pres o reqs m
  simp only [msc_buffer_alloc]
  by_cases hu : m.userCount ≠ -1
  · rw [if_pos hu]
    exact ⟨rfl, rfl⟩
  · rw [if_neg hu]
    by_cases hp : (allocDispatch o m reqs).2 = 0
    · rw [if_pos hp]
      by_cases hq : (allocDispatch o m reqs).1.userCount = -1
      · rw [if_pos hq]
        exact ⟨hd.1, hd.2⟩
      · rw [if_neg hq]
        exact hd
    · rw [if_neg hp]
      exact hd

lemma free_pres (m : Msc) :
    (msc_buffer_unlocked_free_unless_used m).1.nIters = m.nIters
    ∧ (msc_buffer_unlocked_free_unless_used m).1.enabled = m.enabled := by
  have hf : (msc_buffer_free m).nIters = m.nIters
      ∧ (msc_buffer_free m).enabled = m.enabled := by
    unfold msc_buffer_free msc_buffer_contig_free msc_buffer_multi_free
    repeat' split
    all_goals first
      | exact ⟨rfl, rfl⟩
      | exact multiFreeGo_pres _ _
  unfold msc_buffer_unlocked_free_unless_used
  repeat' split
  all_goals first
    | exact ⟨rfl, rfl⟩
    | exact hf

lemma configure_nIters (m : Msc) : (msc_configure m).1.nIters = m.nIters := by
  unfold msc_configure msc_buffer_clear_hw_header
  repeat' split
  all_goals rfl

lemma activate_shape (m : Msc) :
    (intel_th_msc_activate m).1.nIters = m.nIters
    ∧ ((intel_th_msc_activate m).1.enabled = true → m.enabled = true ∨ m.nIters = 0) := by
  simp only [intel_th_msc_activate]
  by_cases hu : m.userCount < 0
  · rw [if_pos hu]
    exact ⟨rfl, fun h => Or.inl h⟩
  · rw [if_neg hu]
    by_cases hi : m.nIters = 0
    · rw [if_pos hi]
      by_cases h2 : (msc_configure { m with userCount := m.userCount + 1 }).2 ≠ 0
      · rw [if_pos h2]
        refine ⟨?_, fun _ => Or.inr hi⟩
        show (msc_configure { m with userCount := m.userCount + 1 }).1.nIters = m.nIters
        rw [configure_nIters]
      · rw [if_neg h2]
        refine ⟨?_, fun _ => Or.inr hi⟩
        show (msc_configure { m with userCount := m.userCount + 1 }).1.nIters = m.nIters
        rw [configure_nIters]
    · rw [if_neg hi]
      rw [if_pos (show (EBUSY : Int) ≠ 0 by decide)]
      exact ⟨rfl, fun h => Or.inl h⟩

lemma deactivate_shape (m : Msc) (ws : Bool) (mwp nwsa : Nat) :
    intel_th_msc_deactivate m ws mwp nwsa = m
    ∨ (intel_th_msc_deactivate m ws mwp nwsa).enabled = false := by
  unfold intel_th_msc_deactivate
  by_cases he : m.enabled = true
  · right
    rw [if_pos he]
    rfl
  · left
    rw [if_neg he]

lemma ctlStep_inv {a b : Msc} (hstep : CtlStep a b)
    (hinv : ¬(a.enabled = true ∧ 0 < a.nIters)) :
    ¬(b.enabled = true ∧ 0 < b.nIters) := by
  cases hstep with
  | install =>
    simp only [msc_iter_install]
    by_cases he : a.enabled = true
    · rw [if_pos he]
      exact hinv
    · rw [if_neg he]
      intro hcon
      exact he hcon.1
  | remove =>
    intro hcon
    exact hinv ⟨hcon.1, by
      have h2 := hcon.2
      show 0 < a.nIters
      simp only [msc_iter_remove] at h2
      omega⟩
  | activate =>
    intro hcon
    obtain ⟨hn, he⟩ := activate_shape a
    cases he hcon.1 with
    | inl h => exact hinv ⟨h, by rw [hn] at hcon; exact hcon.2⟩
    | inr h => rw [hn] at hcon; omega
  | deactivate ws mwp nwsa =>
    intro hcon
    cases deactivate_shape a ws mwp nwsa with
    | inl h => rw [h] at hcon; exact hinv hcon
    | inr h => rw [hcon.1] at h; exact absurd h (by decide)
  | alloc o reqs =>
    obtain ⟨h1, h2⟩ := alloc_pres o a reqs
    rw [h1, h2]
    exact hinv
  | free =>
    obtain ⟨h1, h2⟩ := free_pres a
    rw [h1, h2]
    exact hinv

/-- C8: in every state reachable from the probed device by serialized
lifecycle operations, capture-enabled and an open reader session never hold
together; moreover while capture is enabled, installing a reader returns
-EBUSY and changes nothing, and while a reader is open, activation is
refused (with -EBUSY whenever a buffer is allocated) and capture stays
disabled. -/
theorem C8_capture_reader_exclusion (m : Msc) (h : Reachable m) :
    ¬(m.enabled = true ∧ 0 < m.nIters)
    ∧ (m.enabled = true →
        (msc_iter_install m).2 = EBUSY ∧ (msc_iter_install m).1 = m)
    ∧ (0 < m.nIters →
        (intel_th_msc_activate m).2 ≠ 0
        ∧ (intel_th_msc_activate m).1.enabled = m.enabled
        ∧ (0 ≤ m.userCount → (intel_th_msc_activate m).2 = EBUSY)) := by
  have hinv : ¬(m.enabled = true ∧ 0 < m.nIters) := by
    induction h with
    | refl => intro hcon; exact absurd hcon.1 (by decide)
    | tail h1 h2 ih => exact ctlStep_inv h2 ih
  refine ⟨hinv, ?_, ?_⟩
  · intro he
    simp only [msc_iter_install]
    rw [if_pos he]
    exact ⟨rfl, rfl⟩
  · intro hi
    have hne : ¬ m.nIters = 0 := by omega
    simp only [intel_th_msc_activate]
    by_cases hu : m.userCount < 0
    · rw [if_pos hu]
      exact ⟨show (ENODEV : Int) ≠ 0 by decide, rfl, fun hc => absurd hc (by omega)⟩
    · rw [if_neg hu, if_neg hne, if_pos (show (EBUSY : Int) ≠ 0 by decide)]
      exact ⟨show (EBUSY : Int) ≠ 0 by decide, rfl, fun _ => rfl⟩

theorem C8_capture_reader_exclusion_witness :
    0 < (msc_iter_install mscInit).1.nIters
    ∧ (intel_th_msc_activate (msc_iter_install mscInit).1).2 ≠ 0
    ∧ (intel_th_msc_activate (msc_iter_install mscInit).1).1.enabled = false := by
  have h := C8_capture_reader_exclusion (msc_iter_install mscInit).1
    (Relation.ReflTransGen.tail Relation.ReflTransGen.refl (CtlStep.install mscInit))
  have h3 := h.2.2 (by decide)
  exact ⟨by decide, h3.1, by rw [h3.2.1]; decide⟩

/-- The comma separator of the size list. -/
def COMMA : Char := Char.ofNat 44

/-- The newline character terminating a sysfs write. -/
def NLCHAR : Char := Char.ofNat 10

/-- Decimal digit test. -/
def isDigitC (c : Char) : Bool := decide (48 ≤ c.toNat) && decide (c.toNat ≤ 57)

/-- Modelled from the spec and the kernel kstrtoul contract: parse an
unsigned base-10 integer; one trailing newline is tolerated; an empty
string or any other character fails. -/
def kstrtoul10 (s : List Char) : Option Nat :=
  let s2 := if s.getLast? = some NLCHAR then s.dropLast else s
  if s2 ≠ [] ∧ s2.all isDigitC then
    some (s2.foldl (fun a c => a * 10 + (c.toNat - 48)) 0)
  else none

/-- Outcome of the token-scanning loop of nr_pages_store: an error to
return, a zero entry (leaves with ret = 0), or the collected window sizes. -/
inductive StoreParse where
  | err : Int → StoreParse
  | zeroStop : StoreParse
  | ok : List Nat → StoreParse
deriving Repr, DecidableEq

/-- The do-while loop of nr_pages_store: find the next comma within the
current length, parse the token, stop on parse failure (-EINVAL), on a zero
value, or on a second entry in single mode (-EINVAL); otherwise append the
value and continue with p past the comma and len reduced by the token
length, exactly as the C code computes them. -/
def nrPagesGo (mode : Nat) (buf : List Char) : Nat → Nat → Nat → List Nat → StoreParse
  | 0, _, _, wins => .ok wins
  | fuel + 1, p, len, wins =>
    let sub := (buf.drop p).take len
    let endIdx := sub.findIdx? (fun c => c == COMMA)
    let tokLen := match endIdx with
      | some e => e
      | none => len
    let s := (buf.drop p).take tokLen
    match kstrtoul10 s with
    | none => .err EINVAL
    | some val =>
      if val = 0 then .zeroStop
      else if wins.length ≠ 0 ∧ mode = MSC_MODE_SINGLE then .err EINVAL
      else
        let wins2 := wins ++ [val]
        match endIdx with
        | none => .ok wins2
        | some e =>
          let len2 := len - e
          let p2 := p + e + 1
          if len2 = 0 then .ok wins2
          else nrPagesGo mode buf fuel p2 len2 wins2

/-- nr_pages_store: refuse without the capability; free the previous buffer
unless it is in use; trim the input at the first newline; scan the
comma-separated size list; on a clean scan allocate, otherwise return the
error (a zero entry returns the written size, reporting success). -/
def nr_pages_store (cap : Bool) (o : AllocOracle) (m : Msc) (buf : List Char) : Msc × Int :=
  if ¬ cap then (m, EPERM)
  else
    let fr := msc_buffer_unlocked_free_unless_used m
    if fr.2 ≠ 0 then (fr.1, fr.2)
    else
      let m1 := fr.1
      let len := match buf.findIdx? (fun c => c == NLCHAR) with
        | some e => e
        | none => buf.length
      match nrPagesGo m1.mode buf (len + 1) 0 len [] with
      | .err c => (m1, c)
      | .zeroStop => (m1, (buf.length : Int))
      | .ok wins =>
        let p := msc_buffer_alloc o m1 wins
        (p.1, if p.2 ≠ 0 then p.2 else (buf.length : Int))

/-- The comma-joined concatenation of a token list. -/
def joinTokens : List (List Char) → List Char
  | [] => []
  | t :: rest =>
    match rest with
    | [] => t
    | _ :: _ => t ++ COMMA :: joinTokens rest

/-- The token-level reading of the nr_pages_store scan. -/
def tokensGo (mode : Nat) : List (List Char) → List Nat → StoreParse
  | [], wins => .ok wins
  | t :: rest, wins =>
    match kstrtoul10 t with
    | none => .err EINVAL
    | some val =>
      if val = 0 then .zeroStop
      else if wins.length ≠ 0 ∧ mode = MSC_MODE_SINGLE then .err EINVAL
      else
        match rest with
        | [] => .ok (wins ++ [val])
        | _ :: _ => tokensGo mode rest (wins ++ [val])

lemma findIdx?_none_of_not_mem (c : Char) :
    ∀ (l : List Char), c ∉ l → l.findIdx? (fun x => x == c) = none := by
  intro l
  induction l with
  | nil => intro _; rfl
  | cons a as ih =>
    intro h
    rw [List.findIdx?_cons]
    rw [if_neg (by simp; intro hc; simp_all [hc]), List.findIdx?_succ, ih (by simp_all)]
    rfl

lemma findIdx?_append_comma (t : List Char) (c : Char) (r : List Char) (h : c ∉ t) :
    (t ++ c :: r).findIdx? (fun x => x == c) = some t.length := by
  induction t with
  | nil =>
    rw [List.nil_append, List.findIdx?_cons]
    rw [if_pos (by simp)]
    rfl
  | cons a as ih =>
    rw [List.cons_append, List.findIdx?_cons]
    rw [if_neg (by simp; intro hc; simp_all [hc]), List.findIdx?_succ, ih (by simp_all)]
    rfl

lemma mem_joinTokens (c : Char) :
    ∀ (ts : List (List Char)), c ∈ joinTokens ts → (∃ t ∈ ts, c ∈ t) ∨ c = COMMA := by
  intro ts
  induction ts with
  | nil => intro h; simp [joinTokens] at h
  | cons t rest ih =>
    intro h
    cases rest with
    | nil =>
      left
      exact ⟨t, by simp, by simpa [joinTokens] using h⟩
    | cons r2 rs =>
      rw [show joinTokens (t :: r2 :: rs) = t ++ COMMA :: joinTokens (r2 :: rs) from rfl] at h
      rw [List.mem_append, List.mem_cons] at h
      cases h with
      | inl h => exact Or.inl ⟨t, by simp, h⟩
      | inr h =>
        cases h with
        | inl h => exact Or.inr h
        | inr h =>
          cases ih h with
          | inl h2 =>
            obtain ⟨t2, ht2, hc2⟩ := h2
            exact Or.inl ⟨t2, by simp [ht2], hc2⟩
          | inr h2 => exact Or.inr h2

lemma nrPagesGo_join (mode : Nat) (buf : List Char) :
    ∀ (ts : List (List Char)) (p len fuel : Nat) (wins : List Nat),
      ts ≠ [] →
      buf.drop p = joinTokens ts →
      (∀ t ∈ ts, COMMA ∉ t) →
      (joinTokens ts).length ≤ len →
      ts.length ≤ fuel →
      nrPagesGo mode buf fuel p len wins = tokensGo mode ts wins := by
  intro ts
  induction ts with
  | nil => intro p len fuel wins h; exact absurd rfl h
  | cons t rest ih =>
    intro p len fuel wins _ hdrop hnc hlen hfuel
    cases fuel with
    | zero => simp at hfuel
    | succ fuel =>
      cases rest with
      | nil =>
        have hj : joinTokens [t] = t := rfl
        rw [hj] at hdrop hlen
        have hsub : (buf.drop p).take len = t := by
          rw [hdrop]
          exact List.take_of_length_le hlen
        have hfi : ((buf.drop p).take len).findIdx? (fun c => c == COMMA) = none := by
          rw [hsub]
          exact findIdx?_none_of_not_mem COMMA t (hnc t (by simp))
        simp only [nrPagesGo]
        rw [hfi]
        dsimp only
        rw [hsub]
        cases hk : kstrtoul10 t with
        | none => simp [tokensGo, hk]
        | some val =>
          by_cases hv : val = 0
          · simp [tokensGo, hk, hv]
          · by_cases hsw : wins.length ≠ 0 ∧ mode = MSC_MODE_SINGLE
            · simp [tokensGo, hk, hv, hsw]
            · simp [tokensGo, hk, hv, hsw]
      | cons r2 rs =>
        have hj : joinTokens (t :: r2 :: rs) = t ++ COMMA :: joinTokens (r2 :: rs) := rfl
        rw [hj] at hdrop hlen
        have hlen2 : t.length + 1 + (joinTokens (r2 :: rs)).length ≤ len := by
          have := hlen
          simp [List.length_append] at this
          omega
        have hsub : (buf.drop p).take len = t ++ COMMA :: joinTokens (r2 :: rs) := by
          rw [hdrop]
          exact List.take_of_length_le (by simpa using hlen)
        have hfi : ((buf.drop p).take len).findIdx? (fun c => c == COMMA) = some t.length := by
          rw [hsub]
          exact findIdx?_append_comma t COMMA _ (hnc t (by simp))
        have hs : (buf.drop p).take t.length = t := by
          rw [hdrop]
          have : t ++ COMMA :: joinTokens (r2 :: rs) = t ++ (COMMA :: joinTokens (r2 :: rs)) := rfl
          rw [this]
          exact List.take_left t _
        have hdrop2 : buf.drop (p + t.length + 1) = joinTokens (r2 :: rs) := by
          have h1 : buf.drop (p + t.length + 1) = (buf.drop p).drop (t.length + 1) := by
            rw [List.drop_drop]
            try congr 1
            try omega
          rw [h1, hdrop]
          have h2 : t ++ COMMA :: joinTokens (r2 :: rs)
              = (t ++ [COMMA]) ++ joinTokens (r2 :: rs) := by simp
          rw [h2]
          have h3 : (t ++ [COMMA]).length = t.length + 1 := by simp
          rw [← h3, List.drop_left]
        simp only [nrPagesGo]
        rw [hfi]
        dsimp only
        rw [hs]
        cases hk : kstrtoul10 t with
        | none => simp [tokensGo, hk]
        | some val =>
          by_cases hv : val = 0
          · simp [tokensGo, hk, hv]
          · by_cases hsw : wins.length ≠ 0 ∧ mode = MSC_MODE_SINGLE
            · simp [tokensGo, hk, hv, hsw]
            · rw [show tokensGo mode (t :: r2 :: rs) wins
                  = tokensGo mode (r2 :: rs) (wins ++ [val]) by
                rw [tokensGo, hk]
                dsimp only
                rw [if_neg hv, if_neg hsw]]
              dsimp only
              rw [if_neg hv, if_neg hsw]
              rw [if_neg (show ¬ (len - t.length = 0) by omega)]
              exact ih (p + t.length + 1) (len - t.length) fuel (wins ++ [val])
                (by simp) hdrop2
                (fun t2 ht2 => hnc t2 (by simp [ht2]))
                (by omega)
                (by simpa using hfuel)

lemma tokensGo_reaches (mode : Nat) :
    ∀ (ts : List (List Char)) (j : Nat) (wins : List Nat),
      j < ts.length →
      (∀ i, i < j → ∃ v, (ts.map kstrtoul10).getD i none = some (v + 1)) →
      (mode = MSC_MODE_MULTI ∨ j = 0) →
      (kstrtoul10 (ts.getD j []) = some 0 → tokensGo mode ts wins = .zeroStop)
      ∧ (kstrtoul10 (ts.getD j []) = none → tokensGo mode ts wins = .err EINVAL) := by
  intro ts
  induction ts with
  | nil => intro j wins hj; simp at hj
  | cons t rest ih =>
    intro j wins hj hpre hmode
    cases j with
    | zero =>
      constructor
      · intro hz
        rw [tokensGo]
        rw [show kstrtoul10 ((t :: rest).getD 0 []) = kstrtoul10 t from rfl] at hz
        rw [hz]
        rfl
      · intro hz
        rw [tokensGo]
        rw [show kstrtoul10 ((t :: rest).getD 0 []) = kstrtoul10 t from rfl] at hz
        rw [hz]
    | succ j2 =>
      have hmul : mode = MSC_MODE_MULTI := by
        cases hmode with
        | inl h => exact h
        | inr h => omega
      obtain ⟨v, hv⟩ := hpre 0 (by omega)
      have hv2 : kstrtoul10 t = some (v + 1) := by
        simpa using hv
      have hstep : tokensGo mode (t :: rest) wins = tokensGo mode rest (wins ++ [v + 1]) := by
        rw [tokensGo, hv2]
        dsimp only
        rw [if_neg (by omega)]
        rw [if_neg (by rw [hmul]; simp [MSC_MODE_SINGLE, MSC_MODE_MULTI])]
        cases hr : rest with
        | nil =>
          rw [hr] at hj
          simp at hj
        | cons a b => rfl
      rw [hstep]
      have := ih j2 (wins ++ [v + 1]) (by simpa using hj)
        (fun i hi => by
          have := hpre (i + 1) (by omega)
          simpa using this)
        (Or.inl hmul)
      exact ⟨fun hz => (this.1 (by simpa using hz)), fun hz => (this.2 (by simpa using hz))⟩

lemma free_noop (m : Msc) (h : m.userCount < 0) :
    msc_buffer_unlocked_free_unless_used m = (m, 0) := by
  unfold msc_buffer_unlocked_free_unless_used
  rw [if_neg (by omega), if_neg (by omega)]

lemma joinTokens_len : ∀ ts : List (List Char), ts.length ≤ (joinTokens ts).length + 1 := by
  intro ts
  induction ts with
  | nil => simp [joinTokens]
  | cons t rest ih =>
    cases rest with
    | nil => simp [joinTokens]
    | cons a b =>
      rw [show joinTokens (t :: a :: b) = t ++ COMMA :: joinTokens (a :: b) from rfl]
      simp only [List.length_cons, List.length_append] at ih ⊢
      omega

lemma map_getD_parse (ts : List (List Char)) (j : Nat) (hj : j < ts.length) :
    (ts.map kstrtoul10).getD j none = kstrtoul10 (ts.getD j []) := by
  rw [List.getD_eq_getElem _ _ (by simpa using hj), List.getD_eq_getElem _ _ hj,
    List.getElem_map]

lemma store_reduces (o : AllocOracle) (m : Msc) (ts : List (List Char))
    (huser : m.userCount < 0) (hts : ts ≠ [])
    (hnc : ∀ t ∈ ts, COMMA ∉ t ∧ NLCHAR ∉ t) :
    nr_pages_store true o m (joinTokens ts)
      = match tokensGo m.mode ts [] with
        | .err c => (m, c)
        | .zeroStop => (m, ((joinTokens ts).length : Int))
        | .ok wins =>
          ((msc_buffer_alloc o m wins).1,
           if (msc_buffer_alloc o m wins).2 ≠ 0 then (msc_buffer_alloc o m wins).2
           else ((joinTokens ts).length : Int)) := by
  have hne : (joinTokens ts).findIdx? (fun c => c == NLCHAR) = none :=
    findIdx?_none_of_not_mem NLCHAR _ (by
      intro hmem
      cases mem_joinTokens NLCHAR ts hmem with
      | inl h =>
        obtain ⟨t, ht, hc⟩ := h
        exact (hnc t ht).2 hc
      | inr h => exact absurd h (by decide))
  simp only [nr_pages_store]
  rw [if_neg (by simp)]
  rw [free_noop m huser]
  dsimp only
  rw [if_neg (by simp)]
  rw [hne]
  dsimp only
  rw [nrPagesGo_join m.mode (joinTokens ts) ts 0 (joinTokens ts).length
    ((joinTokens ts).length + 1) [] hts (by simp)
    (fun t ht => (hnc t ht).1) (le_refl _) (joinTokens_len ts)]

/-- C9 (amended): scanning the comma-separated size list stops at the first
offending entry: an entry that does not parse as a number is rejected with
-EINVAL, and a second entry in single mode that parses to a non-zero value
is rejected with -EINVAL, each leaving the buffer unallocated; an entry that
parses to zero, however, makes the store return the written size (success)
without allocating anything rather than -EINVAL. -/
theorem C9_size_list_validation (o : AllocOracle) (m : Msc) (ts : List (List Char))
    (huser : m.userCount < 0)
    (hnc : ∀ t ∈ ts, COMMA ∉ t ∧ NLCHAR ∉ t) :
    (∀ j, j < ts.length →
      (∀ i, i < j → ∃ v, (ts.map kstrtoul10).getD i none = some (v + 1)) →
      (m.mode = MSC_MODE_MULTI ∨ j = 0) →
      ((ts.map kstrtoul10).getD j none = some 0 →
        nr_pages_store true o m (joinTokens ts) = (m, ((joinTokens ts).length : Int)))
      ∧ ((ts.map kstrtoul10).getD j none = none →
        nr_pages_store true o m (joinTokens ts) = (m, EINVAL)))
    ∧ (m.mode = MSC_MODE_SINGLE → 2 ≤ ts.length →
      (∃ v, (ts.map kstrtoul10).getD 0 none = some (v + 1)) →
      (ts.map kstrtoul10).getD 1 none ≠ some 0 →
      nr_pages_store true o m (joinTokens ts) = (m, EINVAL)) := by
  constructor
  · intro j hj hpre hmode
    have hts : ts ≠ [] := by
      intro h
      rw [h] at hj
      simp at hj
    have hred := store_reduces o m ts huser hts hnc
    have hrch := tokensGo_reaches m.mode ts j [] hj hpre hmode
    constructor
    · intro hz
      rw [map_getD_parse ts j hj] at hz
      rw [hred, hrch.1 hz]
    · intro hz
      rw [map_getD_parse ts j hj] at hz
      rw [hred, hrch.2 hz]
  · intro hs hlen2 hv0 hne1
    cases ts with
    | nil => simp at hlen2
    | cons t0 r =>
      cases r with
      | nil => simp at hlen2
      | cons t1 rs =>
        obtain ⟨v, hv⟩ := hv0
        have hk0 : kstrtoul10 t0 = some (v + 1) := by simpa using hv
        have hts : (t0 :: t1 :: rs) ≠ [] := by simp
        have hred := store_reduces o m (t0 :: t1 :: rs) huser hts hnc
        have hgo : tokensGo m.mode (t0 :: t1 :: rs) [] = .err EINVAL := by
          rw [tokensGo, hk0]
          dsimp only
          rw [if_neg (by omega)]
          rw [if_neg (by simp)]
          cases hk1 : kstrtoul10 t1 with
          | none => rw [tokensGo, hk1]
          | some w =>
            cases w with
            | zero =>
              exact absurd (by simpa using hk1) hne1
            | succ w2 =>
              rw [tokensGo, hk1]
              dsimp only
              rw [if_neg (by omega)]
              rw [if_pos ⟨by simp, hs⟩]
        rw [hred, hgo]

/-- C9 counterexample: a zero entry is not rejected with -EINVAL. Writing
the list consisting of the single entry 0 to an unallocated multi-mode
device returns the written size (success) leaving the window list empty,
and in single mode the two-entry list 1,0 likewise returns the written size
instead of -EINVAL. -/
theorem C9_counterexample_zero_entry :
    (nr_pages_store true oC5 mC5 [Char.ofNat 48]).2 = 1
    ∧ (nr_pages_store true oC5 mC5 [Char.ofNat 48]).2 ≠ EINVAL
    ∧ (nr_pages_store true oC5 mC5 [Char.ofNat 48]).1.winList = []
    ∧ (nr_pages_store true oC5 { mC5 with mode := MSC_MODE_SINGLE }
        [Char.ofNat 49, COMMA, Char.ofNat 48]).2 = 3
    ∧ (nr_pages_store true oC5 { mC5 with mode := MSC_MODE_SINGLE }
        [Char.ofNat 49, COMMA, Char.ofNat 48]).2 ≠ EINVAL := by
  refine ⟨by decide, by decide, by decide, by decide, by decide⟩

theorem C9_size_list_validation_witness :
    nr_pages_store true oC5 mC5 (joinTokens [[Char.ofNat 49], [Char.ofNat 97]])
      = (mC5, EINVAL)
    ∧ nr_pages_store true oC5 { mC5 with mode := MSC_MODE_SINGLE }
        (joinTokens [[Char.ofNat 49], [Char.ofNat 50]])
      = ({ mC5 with mode := MSC_MODE_SINGLE }, EINVAL) := by
  have h1 := C9_size_list_validation oC5 mC5 [[Char.ofNat 49], [Char.ofNat 97]]
    (by decide) (by decide)
  have h2 := C9_size_list_validation oC5 { mC5 with mode := MSC_MODE_SINGLE }
    [[Char.ofNat 49], [Char.ofNat 50]] (by decide) (by decide)
  refine ⟨(h1.1 1 (by decide) ?_ (Or.inl rfl)).2 (by decide),
    h2.2 rfl (by decide) ⟨0, by decide⟩ (by decide)⟩
  intro i hi
  have hi0 : i = 0 := by omega
  subst hi0
  exact ⟨0, by decide⟩
